import Mathlib

/-!
Verification development for the dbt-icebreaker core subsystem.

This file gives a shallow embedding in Lean 4 of the routing decision engine
(`traffic.py`, `auto_router.py`), the crash/stability ledger (`state.py`),
the sync reliability manager (`sync_manager.py`) and the structural skeleton
of the SQL transpiler (`transpiler.py`), and proves properties of those
embeddings.

Modelling conventions:
* Python dictionaries are embedded as association lists `List (String × α)`
  (keys are unique in a real dict; theorems that quantify over arbitrary
  association lists add `Nodup` hypotheses on the key list where the
  distinction matters).
* Python numbers are embedded as `ℚ` (dbt config files carry ints and
  floats; all arithmetic appearing in the embedded code is exact on `ℚ`).
* Dynamically typed Python values (model configs, state files, source
  metadata) are embedded as the inductive `PyVal`.
* Python exceptions are embedded with `Except PyErr`; a function that can
  raise returns `Except PyErr α` and a `raise` is `.error`.
* Wall-clock timestamps (`datetime.now().isoformat()`), invocation ids from
  the environment, and durations measured with `time.time()` are
  side-effecting inputs; they are passed in as explicit parameters (or fixed
  to `0` for durations, which no property here observes).
* Persistence (`_save_state` / re-loading the JSON state file in a fresh
  instance) round-trips the state value unchanged, so constructing a new
  manager over the same state directory is embedded as simply continuing
  with the same state value.
-/

/-- Embedded Python runtime error kinds.  Messages are abstracted away; only
the fact that a given built-in operation raises is modelled. -/
inductive PyErr where
  | typeError
  | attributeError
  deriving DecidableEq, Repr

/-- Embedded dynamically-typed Python value (the subset that flows through
the routed model configs, source metadata and state files). -/
inductive PyVal where
  | str (s : String)
  | num (q : ℚ)
  | bool (b : Bool)
  | pynone
  | list (xs : List PyVal)
  | dict (kvs : List (String × PyVal))

/-- `d.get(k)` on a Python dict: first entry with the given key. -/
def dget {α : Type} : List (String × α) → String → Option α
  | [], _ => none
  | p :: rest, k => if p.1 = k then some p.2 else dget rest k

/-- `d[k] = v` on a Python dict: replace the entry in place if the key is
present, otherwise append it at the end (insertion order semantics). -/
def dset {α : Type} : List (String × α) → String → α → List (String × α)
  | [], k, v => [(k, v)]
  | p :: rest, k, v => if p.1 = k then (k, v) :: rest else p :: dset rest k v

/-- `d.pop(k, None)` on a Python dict: remove the entry with the given key
(at most one is present in a real dict). -/
def dpop {α : Type} : List (String × α) → String → List (String × α)
  | [], _ => []
  | p :: rest, k => if p.1 = k then rest else p :: dpop rest k

/-- Python truthiness of an embedded value. -/
def pyTruthy : PyVal → Bool
  | .str s => s ≠ ""
  | .num q => q ≠ 0
  | .bool b => b
  | .pynone => false
  | .list xs => !xs.isEmpty
  | .dict kvs => !kvs.isEmpty

/-- Attribute access `v.get(...)` requires `v` to be a dict, otherwise
Python raises `AttributeError`. -/
def asDictE : PyVal → Except PyErr (List (String × PyVal))
  | .dict kvs => .ok kvs
  | _ => .error .attributeError

/-- Python `v == s` for a string literal `s`: only a `str` value can compare
equal to a string (`==` across types is `False`, never an error). -/
def pyEqStr (v : PyVal) (s : String) : Bool :=
  match v with
  | .str s2 => s2 = s
  | _ => false

/-- Python `str(v)` for the scalar values that reach f-strings in the
embedded code.  Container rendering is simplified (no claim observes it). -/
def pyToStr : PyVal → String
  | .str s => s
  | .num q => toString q
  | .bool b => if b then "True" else "False"
  | .pynone => "None"
  | .list _ => "[...]"
  | .dict _ => "{...}"

namespace IceState

/-! ## state.py — StateManager (Crash/Stability Ledger, WAL)

The persisted JSON document has top-level keys `running`, `crashes`,
`successes`, `local_runs`, `cloud_runs`; `StateManager` itself always writes
this shape, which is embedded as the typed `State` below. -/

/-- One entry of `state["running"]`: `{"started_at": ..., "invocation": ...}`. -/
structure RunEntry where
  started_at : String
  invocation : String
  deriving DecidableEq, Repr

/-- One entry of `state["crashes"]`: cumulative count, last crash timestamp
and a bounded history of `{"timestamp", "error"}` pairs. -/
structure CrashEntry where
  count : Nat
  last_crash : Option String
  history : List (String × String)
  deriving DecidableEq, Repr

/-- The persisted state document (`local_state.json`). -/
structure State where
  running : List (String × RunEntry)
  crashes : List (String × CrashEntry)
  successes : List (String × String)
  local_runs : Nat
  cloud_runs : Nat
  deriving DecidableEq, Repr

/-- `StateManager._default_state()`. -/
def default_state : State :=
  { running := [], crashes := [], successes := [], local_runs := 0, cloud_runs := 0 }

/-- `mark_running(model_id)`: write the WAL "running" marker.
`now` stands for `datetime.now().isoformat()` and `inv` for the
`DBT_INVOCATION_ID` environment value. -/
def mark_running (s : State) (model_id : String) (now inv : String) : State :=
  { s with running := dset s.running model_id ⟨now, inv⟩ }

/-- `mark_success(model_id)`: drop the running marker, record the success
timestamp, bump the local-run counter. -/
def mark_success (s : State) (model_id : String) (now : String) : State :=
  { s with
    running := dpop s.running model_id
    successes := dset s.successes model_id now
    local_runs := s.local_runs + 1 }

/-- Python `history[-5:]`: the last five elements. -/
def lastFive {α : Type} (l : List α) : List α :=
  l.drop (l.length - 5)

/-- `mark_crash(model_id, error)`: drop the running marker, bump the crash
count, append a truncated error to the bounded history. -/
def mark_crash (s : State) (model_id : String) (error : Option String) (now : String) : State :=
  let entry := (dget s.crashes model_id).getD ⟨0, none, []⟩
  let entry2 : CrashEntry :=
    { count := entry.count + 1
      last_crash := some now
      history := lastFive (entry.history ++ [(now, (error.getD "Unknown").take 200)]) }
  { s with
    running := dpop s.running model_id
    crashes := dset s.crashes model_id entry2 }

/-- `get_crash_count(model_id)`. -/
def get_crash_count (s : State) (model_id : String) : Nat :=
  ((dget s.crashes model_id).map CrashEntry.count).getD 0

/-- `was_crash(model_id)`: a leftover running marker is converted into a
durable crash record (side effect), otherwise the crash history is
consulted.  Returns the boolean result together with the (possibly updated)
state. -/
def was_crash (s : State) (model_id : String) (now : String) : Bool × State :=
  if (dget s.running model_id).isSome then
    (true, mark_crash s model_id (some "Previous run didn\x27t complete (OOM?)") now)
  else
    (get_crash_count s model_id > 0, s)

/-- `is_blacklisted(model_id)` with the configured `max_crash_count`. -/
def is_blacklisted (s : State) (model_id : String) (max_crash_count : Nat) : Bool :=
  get_crash_count s model_id ≥ max_crash_count

end IceState

namespace IceSync

/-! ## sync_manager.py — SyncManager / SyncOrchestrator

The two engine connections are external systems; their observable behaviour
during one `sync_table` call is captured by `SyncEnv`: per attempt number,
what the source/target `COUNT(*)` reads return (`none` = the connection is
absent or the query raised, which `_get_row_count` absorbs into `0`) and
whether `_copy_table` succeeds or raises.  `time.sleep` calls are returned
as the trace of delays; `time.time()` durations are fixed to `0` (no claim
observes them).  Each returned result is also appended to the persistent
`SyncLedger` (the append is the identity on the result and is not modelled
further). -/

/-- `SyncResult` dataclass. -/
structure SyncResult where
  success : Bool
  table_id : String
  source_engine : String
  target_engine : String
  source_row_count : Nat := 0
  target_row_count : Nat := 0
  verified : Bool := false
  duration_seconds : ℚ := 0
  error : Option String := none
  attempt : Nat := 1
  deriving DecidableEq, Repr

/-- `SyncConfig` dataclass with its source defaults. -/
structure SyncConfig where
  max_retries : Nat := 3
  retry_delay_seconds : ℚ := 1
  verify_row_counts : Bool := true
  deriving DecidableEq, Repr

/-- Observable behaviour of the two engines during one `sync_table` call,
indexed by attempt number (1-based). -/
structure SyncEnv where
  sourceRead : Nat → Option Nat
  targetRead : Nat → Option Nat
  copy : Nat → Except String Unit

/-- `_get_row_count`: a missing connection or a failing query yields `0`
rather than an exception. -/
def get_row_count (r : Option Nat) : Nat := r.getD 0

/-- The body of one `for attempt in range(...)` iteration of `sync_table`:
read the source count, copy, optionally read and compare the target count.
Returns `(source_count, target_count, verified)` or the raised message. -/
def attempt_once (cfg : SyncConfig) (env : SyncEnv) (a : Nat) :
    Except String (Nat × Nat × Bool) :=
  let src := get_row_count (env.sourceRead a)
  match env.copy a with
  | .error e => .error e
  | .ok _ =>
    if cfg.verify_row_counts then
      let tgt := get_row_count (env.targetRead a)
      if src = tgt then .ok (src, tgt, true)
      else .error s!"Row count mismatch: source={src}, target={tgt}"
    else .ok (src, src, false)

/-- The retry loop of `sync_table`, unrolled on the number of remaining
iterations; `a` is the current (1-based) attempt number, so a call from
`sync_table` maintains `a + remaining = max_retries + 1` and `remaining = 0`
is exactly the fall-through `return` after the `for` loop ("Should not
reach here", possible only when `max_retries = 0`).  The second component
collects the `time.sleep(retry_delay_seconds * attempt)` delays. -/
def sync_loop (cfg : SyncConfig) (env : SyncEnv)
    (table_id source_engine target_engine : String) :
    Nat → Nat → SyncResult × List ℚ
  | _, 0 =>
    ({ success := false, table_id, source_engine, target_engine,
       error := some "Unknown error" }, [])
  | a, r + 1 =>
    match attempt_once cfg env a with
    | .ok (src, tgt, v) =>
      ({ success := true, table_id, source_engine, target_engine,
         source_row_count := src, target_row_count := tgt, verified := v,
         attempt := a }, [])
    | .error e =>
      if r = 0 then
        ({ success := false, table_id, source_engine, target_engine,
           error := some e, attempt := a }, [])
      else
        let rest := sync_loop cfg env table_id source_engine target_engine (a + 1) r
        (rest.1, cfg.retry_delay_seconds * (a : ℚ) :: rest.2)

/-- `sync_table(schema, table, source_engine, target_engine)`. -/
def sync_table (cfg : SyncConfig) (env : SyncEnv)
    (schema table source_engine target_engine : String) :
    SyncResult × List ℚ :=
  sync_loop cfg env (schema ++ "." ++ table) source_engine target_engine 1 cfg.max_retries

/-! ### SyncOrchestrator -/

/-- A `(schema, table)` pair as passed to `sync_in_order`. -/
abbrev Tbl := String × String

/-- The `f"{s}.{t}"` table id. -/
def fmtId (t : Tbl) : String := t.1 ++ "." ++ t.2

/-- `table_ids = {f"{s}.{t}": (s, t) for s, t in tables}` (dict
comprehension: first-insertion position, last value wins). -/
def tableIds (tables : List Tbl) : List (String × Tbl) :=
  tables.foldl (fun d t => dset d (fmtId t) t) []

/-- Does the association list have the given key (`k in d` for a dict)? -/
def hasKey {α : Type} (d : List (String × α)) (k : String) : Bool :=
  (dget d k).isSome

/-- `in_degree[k] += 1` (the key is present when called). -/
def degIncr (k : String) (d : List (String × Int)) : List (String × Int) :=
  d.map fun p => if p.1 = k then (p.1, p.2 + 1) else p

/-- `in_degree[k] -= 1` (the key is present when called). -/
def degDecr (k : String) (d : List (String × Int)) : List (String × Int) :=
  d.map fun p => if p.1 = k then (p.1, p.2 - 1) else p

/-- The in-degree initialisation of `_topological_sort`: start every listed
id at `0`, then for every graph entry whose key is listed add one per
listed dependency (counting multiplicity). -/
def initDeg (ids : List String) (graph : List (String × List String)) :
    List (String × Int) :=
  graph.foldl
    (fun d p =>
      if hasKey d p.1 then
        p.2.foldl (fun d2 dep => if hasKey d2 dep then degIncr p.1 d2 else d2) d
      else d)
    (ids.map fun i => (i, (0 : Int)))

/-- Processing one popped id `tid`: for every graph entry `(other, deps)`
with `tid ∈ deps` and `other` a tracked id, decrement `other`'s in-degree
and enqueue `other` when it reaches exactly `0`. -/
def stepDecr (graph : List (String × List String)) (tid : String)
    (dq : List (String × Int) × List String) :
    List (String × Int) × List String :=
  graph.foldl
    (fun dq2 p =>
      if p.2.contains tid && hasKey dq2.1 p.1 then
        let d3 := degDecr p.1 dq2.1
        if dget d3 p.1 = some 0 then (d3, dq2.2 ++ [p.1]) else (d3, dq2.2)
      else dq2)
    dq

/-- The `while queue:` loop of Kahn's algorithm, with explicit fuel.  The
fuel passed by `topological_sort` (`|queue₀| + |ids|`) always suffices: an
id is enqueued only when its strictly-decreasing degree lands exactly on
`0`, which happens at most once per id, so the loop iterates at most
`|queue₀| + |ids|` times on any input. -/
def kahnLoop (tids : List (String × Tbl)) (graph : List (String × List String)) :
    Nat → List (String × Int) → List String → List Tbl → List Tbl
  | 0, _, _, res => res
  | fuel + 1, deg, q, res =>
    match q with
    | [] => res
    | tid :: rest =>
      let res2 := res ++ [((dget tids tid).getD ("", ""))]
      let dq2 := stepDecr graph tid (deg, rest)
      kahnLoop tids graph fuel dq2.1 dq2.2 res2

/-- `SyncOrchestrator._topological_sort(tables, graph)`: Kahn's algorithm
over the listed table ids, then append any tables still missing from the
result (cycles / never-enqueued nodes) in `table_ids` order. -/
def topological_sort (tables : List Tbl) (graph : List (String × List String)) :
    List Tbl :=
  let tids := tableIds tables
  let ids := tids.map Prod.fst
  let deg0 := initDeg ids graph
  let q0 := (deg0.filter (fun p => p.2 = 0)).map Prod.fst
  let kres := kahnLoop tids graph (q0.length + ids.length) deg0 q0 []
  tids.foldl (fun r p => if p.2 ∈ r then r else r ++ [p.2]) kres

/-- Sequential sync-with-break: sync each table in order, stop after the
first failure (`if not result.success: break`). -/
def run_syncs (sync : String → String → SyncResult) : List Tbl → List SyncResult
  | [] => []
  | t :: rest =>
    let r := sync t.1 t.2
    if r.success then r :: run_syncs sync rest else [r]

/-- `SyncOrchestrator.sync_in_order(tables, dependency_graph)`:
topologically order (when a graph is given) and sync sequentially, stopping
at the first failure.  `sync` abstracts `self.manager.sync_table`. -/
def sync_in_order (sync : String → String → SyncResult)
    (tables : List Tbl) (graph : Option (List (String × List String))) :
    List SyncResult :=
  match graph with
  | none => run_syncs sync tables
  | some g => run_syncs sync (topological_sort tables g)

/-! ### Proof-support notions for the Kahn loop

These definitions are not part of the embedding; they name the invariants
the correctness proof of `topological_sort` tracks. -/

/-- The in-degree dict in normal form: one entry per listed id, in order. -/
def nf (ids : List String) (f : String → Int) : List (String × Int) :=
  ids.map fun id => (id, f id)

/-- The dependencies of an id restricted to the listed ids. -/
def listedDeps (ids : List String) (graph : List (String × List String))
    (id : String) : List String :=
  ((dget graph id).getD []).filter fun d => decide (d ∈ ids)

/-- The initial degree function: each listed id starts at the number of its
listed dependencies. -/
def deg0fun (ids : List String) (graph : List (String × List String)) :
    String → Int :=
  fun id => ((listedDeps ids graph id).length : Int)

/-- The effect of processing one popped `tid` on the degree function. -/
def decOne (ids : List String) (graph : List (String × List String))
    (tid : String) (f : String → Int) : String → Int :=
  fun id =>
    if decide (id ∈ ids) && ((dget graph id).getD []).contains tid then f id - 1
    else f id

/-- The ids enqueued while processing one popped `tid`. -/
def newQ (ids : List String) (graph : List (String × List String))
    (tid : String) (f : String → Int) : List String :=
  (graph.filter fun p =>
    p.2.contains tid && decide (p.1 ∈ ids) && decide (f p.1 = 1)).map Prod.fst

/-- Loop measure: queue length plus the listed ids not yet queued or
emitted.  It decreases by exactly one per iteration. -/
def kahnMeasure (ids : List String) (q rids : List String) : Nat :=
  q.length + (ids.filter fun id => decide (id ∉ q) && decide (id ∉ rids)).length

/-- The loop invariant of the Kahn phase of `topological_sort`. -/
structure KahnInv (tables : List Tbl) (graph : List (String × List String))
    (f : String → Int) (q : List String) (res : List Tbl) : Prop where
  hq_sub : ∀ x ∈ q, x ∈ tables.map fmtId
  hq_nd : q.Nodup
  hres_sub : ∀ t ∈ res, t ∈ tables
  hrid_nd : (res.map fmtId).Nodup
  hdisj : ∀ x ∈ q, x ∉ res.map fmtId
  hdeg : ∀ id ∈ tables.map fmtId,
    f id = ((listedDeps (tables.map fmtId) graph id).filter
      fun d => decide (d ∉ res.map fmtId)).length
  hq_done : ∀ x ∈ q, ∀ d ∈ listedDeps (tables.map fmtId) graph x,
    d ∈ res.map fmtId
  horder : ∀ i x, (res.map fmtId)[i]? = some x →
    ∀ d ∈ listedDeps (tables.map fmtId) graph x, d ∈ (res.map fmtId).take i
  hzero : ∀ id ∈ tables.map fmtId, id ∉ q → id ∉ res.map fmtId → f id ≠ 0

end IceSync

/-- Python `v > x` for a float/int right-hand side `x`: defined for numbers
and booleans (a `bool` is an `int`), a `TypeError` for every other type. -/
def pyGtQ (v : PyVal) (x : ℚ) : Except PyErr Bool :=
  match v with
  | .num q => .ok (q > x)
  | .bool b => .ok ((if b then (1 : ℚ) else 0) > x)
  | _ => .error .typeError

/-- The numeric value of a number-like `PyVal` (used only after `pyGtQ`
succeeded, for rendering details). -/
def pyAsQ : PyVal → ℚ
  | .num q => q
  | .bool b => if b then 1 else 0
  | _ => 0

/-- Crude rendering of Python's `f"{q:.1f}"` (round to one decimal).  Only
diagnostic `details` strings use it and no claim observes them. -/
def fmt1 (q : ℚ) : String :=
  let t : Int := Int.floor (q * 10 + 1 / 2)
  toString (t / 10) ++ "." ++ toString (t % 10)

/-- Python `", ".join(v)`: defined for iterables of strings (a plain string
iterates over its characters; a dict iterates over its keys), a
`TypeError` otherwise. -/
def pyJoinComma (v : PyVal) : Except PyErr String :=
  match v with
  | .list xs =>
    match xs.mapM (fun x => match x with | .str s => some s | _ => none) with
    | some ss => .ok (String.intercalate ", " ss)
    | none => .error .typeError
  | .str s => .ok (String.intercalate ", " (s.toList.map (fun c => String.mk [c])))
  | .dict kvs => .ok (String.intercalate ", " (kvs.map Prod.fst))
  | _ => .error .typeError

/-- Is the first list a prefix of the second? -/
def isPre {α : Type} [DecidableEq α] : List α → List α → Bool
  | [], _ => true
  | _ :: _, [] => false
  | a :: as, b :: bs => a = b && isPre as bs

/-- Is the first list a contiguous sublist of the second? -/
def subList {α : Type} [DecidableEq α] (n : List α) : List α → Bool
  | [] => n.isEmpty
  | c :: rest => isPre n (c :: rest) || subList n rest

/-- Python `nee in hay` on strings (substring test). -/
def strIn (nee hay : String) : Bool := subList nee.toList hay.toList

/-- Python `s.lower()` (character-wise; the identifiers involved are
ASCII). -/
def strLower (s : String) : String := String.mk (s.toList.map Char.toLower)

/-- Python `s.upper()` (character-wise). -/
def strUpper (s : String) : String := String.mk (s.toList.map Char.toUpper)

/-- Python `not sql or not sql.strip()`: the string has no non-whitespace
content. -/
def isBlank (s : String) : Bool := s.toList.all Char.isWhitespace

/-- Python `k in v` for the containers reachable here: dict keys (string
keys only; unhashable keys raise), list membership over scalars, substring
test for strings, `TypeError` for non-containers.  Container-in-container
membership does not occur in the embedded state files and is `false`. -/
def pyContains (v : PyVal) (k : PyVal) : Except PyErr Bool :=
  match v with
  | .dict kvs =>
    match k with
    | .str s => .ok (dget kvs s).isSome
    | .list _ => .error .typeError
    | .dict _ => .error .typeError
    | _ => .ok false
  | .list xs =>
    .ok (xs.any fun x =>
      match x, k with
      | .str a, .str b => a = b
      | .num a, .num b => a = b
      | .bool a, .bool b => a = b
      | .pynone, .pynone => true
      | _, _ => false)
  | .str s =>
    match k with
    | .str s2 => .ok (strIn s2 s)
    | _ => .error .typeError
  | _ => .error .typeError

namespace IceTraffic

/-! ## traffic.py — TrafficController (the six-gate routing engine)

`decide` consults the transpiler through two calls
(`detect_blacklisted_functions` and `can_transpile`); their behaviour
(which is determined by the third-party sqlglot library) is abstracted as
the `TranspOracle` argument.  The lazily-loaded `local_state.json` and
`cloud_stats.json` documents are passed in as the already-loaded dicts.
`self._catalog` is set to `None` in `__init__` and never assigned, so
`_smart_scan` always returns `None`; it is embedded as the constant
`none`. -/

/-- `RoutingReason` enum. -/
inductive RoutingReason where
  | USER_OVERRIDE
  | VIEW_DEPENDENCY
  | INTERNAL_SOURCE
  | UNTRANSPILABLE
  | TOXIC_TYPES
  | CRASH_HISTORY
  | HIGH_COMPLEXITY
  | LARGE_VOLUME
  | DEFAULT_LOCAL
  deriving DecidableEq, Repr

/-- `RoutingDecision` dataclass (venue is the literal `"LOCAL"`/`"CLOUD"`). -/
structure RoutingDecision where
  venue : String
  reason : RoutingReason
  details : Option String := none
  gate : Option Nat := none
  deriving DecidableEq, Repr

/-- `TrafficConfig` dataclass with its source defaults. -/
structure TrafficConfig where
  max_local_seconds : ℚ := 600
  max_spill_bytes : ℚ := 1024 ^ 3
  max_local_size_gb : ℚ := 5
  deriving DecidableEq, Repr

/-- The two transpiler queries `decide` makes, abstracted (their value is
computed by sqlglot parsing, outside this repository). -/
structure TranspOracle where
  detect : String → List String
  can_transpile : String → Bool × Option String

/-- `_gate_intent(config)`: the user override.  Fires only on the exact
strings `"cloud"` / `"local"`. -/
def gate_intent (config : PyVal) : Except PyErr (Option RoutingDecision) :=
  match asDictE config with
  | .error e => .error e
  | .ok cfg =>
    match dget cfg "icebreaker_route" with
    | some (.str s) =>
      if s = "cloud" then
        .ok (some ⟨"CLOUD", .USER_OVERRIDE, some "icebreaker_route=\x27cloud\x27", some 1⟩)
      else if s = "local" then
        .ok (some ⟨"LOCAL", .USER_OVERRIDE, some "icebreaker_route=\x27local\x27", some 1⟩)
      else .ok none
    | _ => .ok none

/-- The source-list scan inside `_gate_gravity`: the first source whose
`meta["format"]` equals `"internal"` fires the gate. -/
def find_internal : List PyVal → Except PyErr (Option RoutingDecision)
  | [] => .ok none
  | src :: rest =>
    match asDictE src with
    | .error e => .error e
    | .ok s =>
      match asDictE ((dget s "meta").getD (.dict [])) with
      | .error e => .error e
      | .ok meta =>
        if pyEqStr ((dget meta "format").getD .pynone) "internal" then
          .ok (some ⟨"CLOUD", .INTERNAL_SOURCE,
            some (pyToStr ((dget s "name").getD (.str "unknown"))), some 2⟩)
        else find_internal rest

/-- `_gate_gravity(model, sources)`.  The `depends_on`/`refs` lookup in the
source is dead code (read, never used); only the source-metadata scan can
fire. -/
def gate_gravity (_mkvs : List (String × PyVal)) (sources : Option (List PyVal)) :
    Except PyErr (Option RoutingDecision) :=
  match sources with
  | none => .ok none
  | some srcs => if srcs.isEmpty then .ok none else find_internal srcs

/-- `_gate_capability(sql, model)`: blacklisted functions, transpilability,
declared toxic types. -/
def gate_capability (tr : TranspOracle) (sql : String) (mkvs : List (String × PyVal)) :
    Except PyErr (Option RoutingDecision) :=
  let bl := tr.detect sql
  if !bl.isEmpty then
    .ok (some ⟨"CLOUD", .UNTRANSPILABLE,
      some ("Found: " ++ String.intercalate ", " (bl.take 3)), some 3⟩)
  else
    match tr.can_transpile sql with
    | (can, err) =>
      if !can then
        .ok (some ⟨"CLOUD", .UNTRANSPILABLE, err, some 3⟩)
      else
        match asDictE ((dget mkvs "config").getD (.dict [])) with
        | .error e => .error e
        | .ok cfg =>
          let toxic := (dget cfg "toxic_types").getD (.list [])
          if pyTruthy toxic then
            match pyJoinComma toxic with
            | .error e => .error e
            | .ok j => .ok (some ⟨"CLOUD", .TOXIC_TYPES, some ("Types: " ++ j), some 3⟩)
          else .ok none

/-- `_gate_stability(model)`: crash history or a leftover running marker. -/
def gate_stability (local_state : List (String × PyVal)) (mkvs : List (String × PyVal)) :
    Except PyErr (Option RoutingDecision) :=
  let uid := (dget mkvs "unique_id").getD (.str "")
  let crashes := (dget local_state "crashes").getD (.dict [])
  match pyContains crashes uid with
  | .error e => .error e
  | .ok true =>
    match crashes, uid with
    | .dict kvs, .str s =>
      match dget kvs s with
      | some info =>
        match asDictE info with
        | .error e => .error e
        | .ok i =>
          .ok (some ⟨"CLOUD", .CRASH_HISTORY,
            some ("Last crash: " ++ pyToStr ((dget i "timestamp").getD (.str "unknown"))),
            some 4⟩)
      | none => .ok none
    | _, _ => .ok none
  | .ok false =>
    let running := (dget local_state "running").getD (.dict [])
    match pyContains running uid with
    | .error e => .error e
    | .ok true =>
      .ok (some ⟨"CLOUD", .CRASH_HISTORY, some "Previous run didn\x27t complete", some 4⟩)
    | .ok false => .ok none

/-- `_gate_complexity(model)`: historical runtime / spill thresholds. -/
def gate_complexity (cloud_stats : List (String × PyVal)) (cfg : TrafficConfig)
    (mkvs : List (String × PyVal)) : Except PyErr (Option RoutingDecision) :=
  match asDictE ((dget cloud_stats "models").getD (.dict [])) with
  | .error e => .error e
  | .ok models =>
    let stats :=
      (match (dget mkvs "name").getD (.str "") with
       | .str s => dget models s
       | _ => none).getD (.dict [])
    if !pyTruthy stats then .ok none
    else
      match asDictE stats with
      | .error e => .error e
      | .ok st =>
        let avg_seconds := (dget st "avg_seconds").getD (.num 0)
        match pyGtQ avg_seconds cfg.max_local_seconds with
        | .error e => .error e
        | .ok true =>
          .ok (some ⟨"CLOUD", .HIGH_COMPLEXITY,
            some ("Avg runtime: " ++ fmt1 (pyAsQ avg_seconds / 60) ++ "m"), some 5⟩)
        | .ok false =>
          let avg_spill := (dget st "avg_spill_bytes").getD (.num 0)
          match pyGtQ avg_spill cfg.max_spill_bytes with
          | .error e => .error e
          | .ok true =>
            .ok (some ⟨"CLOUD", .HIGH_COMPLEXITY,
              some ("Avg spill: " ++ fmt1 (pyAsQ avg_spill / 1024 ^ 3) ++ "GB"), some 5⟩)
          | .ok false => .ok none

/-- `_gate_physics(model, sql)`: declared size estimate, then the
`_smart_scan` which always returns `None` (no catalog is ever attached). -/
def gate_physics (cfg : TrafficConfig) (mkvs : List (String × PyVal)) :
    Except PyErr (Option RoutingDecision) :=
  match asDictE ((dget mkvs "config").getD (.dict [])) with
  | .error e => .error e
  | .ok c =>
    match dget c "estimated_size_gb" with
    | some est =>
      if pyTruthy est then
        match pyGtQ est cfg.max_local_size_gb with
        | .error e => .error e
        | .ok true =>
          .ok (some ⟨"CLOUD", .LARGE_VOLUME,
            some ("Estimated: " ++ fmt1 (pyAsQ est) ++ "GB > " ++
              fmt1 cfg.max_local_size_gb ++ "GB"), some 6⟩)
        | .ok false => .ok none
      else .ok none
    | none => .ok none

/-- `TrafficController.decide(model, sql, sources)`: the ordered gate
chain; the first gate returning a decision wins, otherwise DEFAULT_LOCAL.
There is no exception handling anywhere in the chain: an error raised by a
gate propagates to the caller. -/
def decide (tr : TranspOracle) (cfg : TrafficConfig)
    (local_state cloud_stats : List (String × PyVal))
    (model : PyVal) (sql : String) (sources : Option (List PyVal)) :
    Except PyErr RoutingDecision :=
  match asDictE model with
  | .error e => .error e
  | .ok mkvs =>
    let config := (dget mkvs "config").getD (.dict [])
    match gate_intent config with
    | .error e => .error e
    | .ok (some d) => .ok d
    | .ok none =>
      match gate_gravity mkvs sources with
      | .error e => .error e
      | .ok (some d) => .ok d
      | .ok none =>
        match gate_capability tr sql mkvs with
        | .error e => .error e
        | .ok (some d) => .ok d
        | .ok none =>
          match gate_stability local_state mkvs with
          | .error e => .error e
          | .ok (some d) => .ok d
          | .ok none =>
            match gate_complexity cloud_stats cfg mkvs with
            | .error e => .error e
            | .ok (some d) => .ok d
            | .ok none =>
              match gate_physics cfg mkvs with
              | .error e => .error e
              | .ok (some d) => .ok d
              | .ok none => .ok ⟨"LOCAL", .DEFAULT_LOCAL, none, none⟩

end IceTraffic

/-- Python `v < x` for a float right-hand side: numbers and booleans
compare, everything else raises `TypeError`. -/
def pyLtQ (v : PyVal) (x : ℚ) : Except PyErr Bool :=
  match v with
  | .num q => .ok (q < x)
  | .bool b => .ok ((if b then (1 : ℚ) else 0) < x)
  | _ => .error .typeError

/-- Left-pad a string with `0` up to the given length. -/
def padZero (d : Nat) (s : String) : String :=
  String.mk (List.replicate (d - s.length) '0') ++ s

/-- Crude rendering of Python's `f"{q:.df}"` with `d` decimals (see
`fmt1`); diagnostic strings only. -/
def fmtDec (d : Nat) (q : ℚ) : String :=
  let t : Int := Int.floor (q * (10 : ℚ) ^ d + 1 / 2)
  toString (t / (10 : Int) ^ d) ++ "." ++ padZero d (toString (t % (10 : Int) ^ d))

/-- Python iteration `for x in v`: lists yield elements, strings yield
single-character strings, dicts yield their keys; other values raise. -/
def pyIter : PyVal → Except PyErr (List PyVal)
  | .list xs => .ok xs
  | .str s => .ok (s.toList.map fun c => .str (String.mk [c]))
  | .dict kvs => .ok (kvs.map fun p => .str p.1)
  | _ => .error .typeError

namespace IceAuto

/-! ## auto_router.py — AutoRouter (the regex/substring heuristic router)

The `re` module's engine is outside this repository; the two short inline
patterns of `_detect_cloud_functions` and the `_iceberg_pattern` of
`_is_iceberg_catalog_source` are embedded concretely below (as scanners
implementing exactly those regexes, with `\w` read as its ASCII subset
`[A-Za-z0-9_]` — the identifiers involved are ASCII).  The thirteen
`EXTERNAL_SOURCE_PATTERNS` searches are abstracted as the `ReOracle`
argument (indexed by position in the pattern list, returning the leftmost
match text if any); no property proved here depends on their outcome. -/

/-- `RoutingReason` enum of `auto_router.py`. -/
inductive RoutingReason where
  | EXTERNAL_SOURCE
  | CLOUD_FUNCTION
  | CLOUD_DEPENDENCY
  | VOLUME_EXCEEDS_LIMIT
  | MEMORY_CONSTRAINT
  | USER_OVERRIDE
  | PREVIOUS_FAILURE
  | HISTORICAL_COST
  | AUTO_LOCAL
  | USER_OVERRIDE_LOCAL
  | ICEBERG_LOCAL
  | HISTORICAL_CHEAP
  deriving DecidableEq, Repr

/-- `RoutingDecision` dataclass of `auto_router.py`. -/
structure RoutingDecision where
  venue : String
  reason : RoutingReason
  details : Option String := none
  confidence : ℚ := 1
  deriving DecidableEq, Repr

/-- The `CLOUD_ONLY_FUNCTIONS` set, in source order (a Python `set` has no
specified iteration order; only which entry is reported first, not whether
one is found, depends on it). -/
def CLOUD_ONLY_FUNCTIONS : List String :=
  [ "snowflake.ml", "snowflake.cortex", "cortex.complete", "cortex.sentiment",
    "cortex.summarize", "cortex.translate", "cortex.extract_answer",
    "get_path", "xmlget", "parse_xml",
    "system$stream_has_data", "create stream", "create task",
    "st_asgeojson", "st_geogfromtext", "st_makepolygon", "geography",
    "external_function", "invoke " ]

/-- The `EXTERNAL_SOURCE_PATTERNS` regex list (data only; searches over it
go through `ReOracle`). -/
def EXTERNAL_SOURCE_PATTERNS : List String :=
  [ "@[\\w\\.]+/", "from\\s+@",
    "(\\w+)\\.(\\w+)\\.(\\w+)",
    "s3://[\\w\\-\\.]+/", "gs://[\\w\\-\\.]+/", "azure://[\\w\\-\\.]+/",
    "abfss?://[\\w\\-\\.]+/", "https?://[\\w\\-\\.]+/",
    "share\\.", "snowflake\\.account_usage", "snowflake\\.organization_usage",
    "external_table", "copy\\s+into" ]

/-- Oracle for `re.search` over `EXTERNAL_SOURCE_PATTERNS`: for pattern
index `i` and haystack `sql`, the leftmost match text (`match.group(0)`),
if any. -/
structure ReOracle where
  externalSearch : Nat → String → Option String

/-- ASCII `\w`. -/
def isWordChar (c : Char) : Bool := c.isAlphanum || c = '_'

/-- Case-insensitive literal match at the head (pattern is lowercase);
returns the remainder on success. -/
def matchLitCI : List Char → List Char → Option (List Char)
  | [], rest => some rest
  | _, [] => none
  | p :: ps, c :: cs => if c.toLower = p then matchLitCI ps cs else none

/-- Greedily consume `\w*`; returns the count consumed and the rest. -/
def munchW : List Char → Nat × List Char
  | [] => (0, [])
  | c :: cs =>
    if isWordChar c then
      let r := munchW cs
      (r.1 + 1, r.2)
    else (0, c :: cs)

/-- Does `iceberg_catalog\.\w+\.\w+` (case-insensitively) match starting
exactly here? -/
def icebergAt (cs : List Char) : Bool :=
  match matchLitCI "iceberg_catalog.".toList cs with
  | none => false
  | some rest =>
    match munchW rest with
    | (0, _) => false
    | (_ + 1, rest2) =>
      match rest2 with
      | '.' :: rest3 =>
        match munchW rest3 with
        | (0, _) => false
        | _ => true
      | _ => false

/-- Scan all positions, tracking whether a `\b` word boundary precedes the
current position (the pattern starts with a word character, so `\b` holds
iff the previous character is not a word character or we are at the
start). -/
def icebergScan : Bool → List Char → Bool
  | _, [] => false
  | bnd, c :: rest => (bnd && icebergAt (c :: rest)) || icebergScan (!isWordChar c) rest

/-- `_is_iceberg_catalog_source(sql)`: search for
`\biceberg_catalog\.\w+\.\w+` with `re.IGNORECASE`. -/
def is_iceberg_catalog_source (sql : String) : Bool :=
  icebergScan true sql.toList

/-- Try a position-anchored matcher at every position (`re.search`). -/
def anyPos (f : List Char → Bool) : List Char → Bool
  | [] => f []
  | c :: rest => f (c :: rest) || anyPos f rest

/-- Does `\w+:\w+::\w+` match starting exactly here?  (The character
classes on either side of the literals are disjoint, so greedy matching
needs no backtracking.) -/
def colonCastAt (cs : List Char) : Bool :=
  match munchW cs with
  | (0, _) => false
  | (_ + 1, rest) =>
    match rest with
    | ':' :: rest2 =>
      match munchW rest2 with
      | (0, _) => false
      | (_ + 1, rest3) =>
        match rest3 with
        | ':' :: ':' :: rest4 =>
          match munchW rest4 with
          | (0, _) => false
          | _ => true
        | _ => false
    | _ => false

/-- The `'` character (spelled via its code point). -/
def quoteChar : Char := Char.ofNat 39

/-- Does `\w+\['\w+'\]` match starting exactly here? -/
def bracketAt (cs : List Char) : Bool :=
  match munchW cs with
  | (0, _) => false
  | (_ + 1, rest) =>
    match rest with
    | '[' :: q :: rest2 =>
      if q = quoteChar then
        match munchW rest2 with
        | (0, _) => false
        | (_ + 1, rest3) =>
          match rest3 with
          | q2 :: ']' :: _ => q2 == quoteChar
          | _ => false
      else false
    | _ => false

/-- `_detect_cloud_functions(sql)`: substring scan of the cloud-only
function list over the lowercased SQL, then the two semi-structured-access
regexes. -/
def detect_cloud_functions (sql : String) : Option String :=
  let lower := strLower sql
  match CLOUD_ONLY_FUNCTIONS.find? (fun f => strIn (strLower f) lower) with
  | some f => some ("Function: " ++ f)
  | none =>
    if anyPos colonCastAt sql.toList then
      some "Snowflake semi-structured syntax (col:field::type)"
    else if anyPos bracketAt sql.toList then
      some "Snowflake variant access (col[\x27field\x27])"
    else none

/-- The `for pattern in self._external_patterns:` loop of
`_detect_external_sources`, over pattern indices: the first pattern with a
match yields `Pattern: <first 50 chars>`, unless the matched text mentions
`iceberg_catalog`, which is skipped. -/
def pattern_scan (re : ReOracle) (sql : String) : List Nat → Option String
  | [] => none
  | i :: rest =>
    match re.externalSearch i sql with
    | some m =>
      if strIn "iceberg_catalog" (strLower m) then pattern_scan re sql rest
      else some ("Pattern: " ++ m.take 50)
    | none => pattern_scan re sql rest

/-- The source-metadata loop of `_detect_external_sources`. -/
def source_scan : List PyVal → Except PyErr (Option String)
  | [] => .ok none
  | src :: rest =>
    match asDictE src with
    | .error e => .error e
    | .ok s =>
      match asDictE ((dget s "meta").getD (.dict [])) with
      | .error e => .error e
      | .ok meta =>
        if pyTruthy ((dget meta "iceberg").getD .pynone) ||
           pyTruthy ((dget meta "is_iceberg").getD .pynone) then
          source_scan rest
        else if pyTruthy ((dget meta "external").getD .pynone) ||
                pyTruthy ((dget meta "is_external").getD .pynone) then
          .ok (some ("Source \x27" ++ pyToStr ((dget s "name").getD .pynone) ++
            "\x27 is external"))
        else
          let db := (dget s "database").getD (.str "")
          if pyTruthy db && !pyEqStr db "memory" && !pyEqStr db "iceberg_catalog" then
            .ok (some ("Source \x27" ++ pyToStr ((dget s "name").getD .pynone) ++
              "\x27 is cross-database"))
          else
            let f := (dget meta "format").getD .pynone
            if pyEqStr f "external" || pyEqStr f "stage" || pyEqStr f "s3" ||
               pyEqStr f "gcs" then
              .ok (some ("Source \x27" ++ pyToStr ((dget s "name").getD .pynone) ++
                "\x27 format is " ++ pyToStr f))
            else source_scan rest

/-- `_detect_external_sources(sql, sources)`: an Iceberg-catalog reference
anywhere short-circuits to "not external"; otherwise the regex patterns,
then the source metadata, are consulted.  (`sql_upper` is computed and
unused in the source.) -/
def detect_external_sources (re : ReOracle) (sql : String)
    (sources : Option (List PyVal)) : Except PyErr (Option String) :=
  if is_iceberg_catalog_source sql then .ok none
  else
    match pattern_scan re sql (List.range EXTERNAL_SOURCE_PATTERNS.length) with
    | some desc => .ok (some desc)
    | none =>
      match sources with
      | none => .ok none
      | some srcs => if srcs.isEmpty then .ok none else source_scan srcs

/-- `_has_local_failures(model_name)`. -/
def has_local_failures (history : List (String × PyVal)) (model_name : PyVal) :
    Except PyErr Bool :=
  match pyContains (.dict history) model_name with
  | .error e => .error e
  | .ok true =>
    match model_name with
    | .str mn =>
      match dget history mn with
      | some v =>
        match asDictE v with
        | .error e => .error e
        | .ok st => pyGtQ ((dget st "local_failures").getD (.num 0)) 0
      | none => .ok false
    | _ => .ok false
  | .ok false => .ok false

/-- The per-node body of `_check_cloud_dependencies`. -/
def dep_scan (history : List (String × PyVal)) : List PyVal → Except PyErr (Option String)
  | [] => .ok none
  | node :: rest =>
    match node with
    | .str nid =>
      match dget history nid with
      | some v =>
        match asDictE v with
        | .error e => .error e
        | .ok h =>
          if pyEqStr ((dget h "venue").getD .pynone) "CLOUD" &&
             (pyEqStr ((dget h "reason").getD .pynone) "EXTERNAL_SOURCE" ||
              pyEqStr ((dget h "reason").getD .pynone) "CLOUD_FUNCTION") then
            .ok (some ("Depends on cloud-only: " ++ (nid.splitOn ".").getLastD ""))
          else dep_scan history rest
      | none => dep_scan history rest
    | _ => .error .attributeError

/-- `_check_cloud_dependencies(model)`. -/
def check_cloud_dependencies (history : List (String × PyVal))
    (mkvs : List (String × PyVal)) : Except PyErr (Option String) :=
  match asDictE ((dget mkvs "depends_on").getD (.dict [])) with
  | .error e => .error e
  | .ok d =>
    match pyIter ((dget d "nodes").getD (.list [])) with
    | .error e => .error e
    | .ok nodes => dep_scan history nodes

/-- The partial-match loop of `_check_historical_cost`. -/
def cost_scan (mu : String) : List (String × PyVal) → Except PyErr (Option PyVal)
  | [] => .ok none
  | (k, v) :: rest =>
    if k.endsWith ("." ++ mu) || k = mu then
      match asDictE v with
      | .error e => .error e
      | .ok st => .ok (some ((dget st "avg_cost_usd").getD (.num 0)))
    else cost_scan mu rest

/-- `_check_historical_cost(model_name)`: exact uppercase key match, then a
suffix match; `getattr(stats, 'avg_cost_usd', stats.get(...))` falls
through to the dict lookup for the plain dict values stored here. -/
def check_historical_cost (query_stats : List (String × PyVal))
    (model_name : PyVal) : Except PyErr (Option PyVal) :=
  if query_stats.isEmpty then .ok none
  else
    match model_name with
    | .str mn =>
      let mu := strUpper mn
      match dget query_stats mu with
      | some stats =>
        match asDictE stats with
        | .error e => .error e
        | .ok st => .ok (some ((dget st "avg_cost_usd").getD (.num 0)))
      | none => cost_scan mu query_stats
    | _ => .error .attributeError

/-- Step 1 of `AutoRouter.decide`: the (case-normalised) user override. -/
def step_override (cfg : List (String × PyVal)) : Except PyErr (Option RoutingDecision) :=
  let explicit := (dget cfg "icebreaker_route").getD .pynone
  if pyTruthy explicit then
    match explicit with
    | .str s =>
      if strLower s = "cloud" then
        .ok (some ⟨"CLOUD", .USER_OVERRIDE, some "icebreaker_route=\x27cloud\x27", 1⟩)
      else if strLower s = "local" then
        .ok (some ⟨"LOCAL", .USER_OVERRIDE_LOCAL, some "icebreaker_route=\x27local\x27", 1⟩)
      else .ok none
    | _ => .error .attributeError
  else .ok none

/-- `AutoRouter.decide(sql, model, sources)`: the seven ordered checks.
`catalog` is `estimate_input_volume` when a catalog scanner was supplied. -/
def decide (re : ReOracle) (max_local_gb : ℚ) (catalog : Option (PyVal → ℚ))
    (history query_stats : List (String × PyVal)) (cost_threshold : ℚ)
    (sql : String) (model : PyVal) (sources : Option (List PyVal)) :
    Except PyErr RoutingDecision :=
  match asDictE model with
  | .error e => .error e
  | .ok mkvs =>
    let model_name := (dget mkvs "name").getD (.str "unknown")
    match asDictE ((dget mkvs "config").getD (.dict [])) with
    | .error e => .error e
    | .ok cfg =>
      match step_override cfg with
      | .error e => .error e
      | .ok (some d) => .ok d
      | .ok none =>
        match has_local_failures history model_name with
        | .error e => .error e
        | .ok true =>
          .ok ⟨"CLOUD", .PREVIOUS_FAILURE, some "Local execution failed previously", 9/10⟩
        | .ok false =>
          match detect_external_sources re sql sources with
          | .error e => .error e
          | .ok (some ext) => .ok ⟨"CLOUD", .EXTERNAL_SOURCE, some ext, 1⟩
          | .ok none =>
            match detect_cloud_functions sql with
            | some cf => .ok ⟨"CLOUD", .CLOUD_FUNCTION, some cf, 1⟩
            | none =>
              match check_cloud_dependencies history mkvs with
              | .error e => .error e
              | .ok (some dep) => .ok ⟨"CLOUD", .CLOUD_DEPENDENCY, some dep, 4/5⟩
              | .ok none =>
                let volume :=
                  match catalog with
                  | some est =>
                    let v := est model
                    if v > max_local_gb then
                      some (⟨"CLOUD", .VOLUME_EXCEEDS_LIMIT,
                        some (fmtDec 1 v ++ "GB > " ++ fmtDec 1 max_local_gb ++ "GB limit"),
                        1⟩ : RoutingDecision)
                    else none
                  | none => none
                match volume with
                | some d => .ok d
                | none =>
                  match check_historical_cost query_stats model_name with
                  | .error e => .error e
                  | .ok (some c) =>
                    match pyLtQ c cost_threshold with
                    | .error e => .error e
                    | .ok true =>
                      .ok ⟨"LOCAL", .HISTORICAL_CHEAP,
                        some ("Historical cost $" ++ fmtDec 3 (pyAsQ c) ++ " < $" ++
                          fmtDec 2 cost_threshold), 17/20⟩
                    | .ok false =>
                      .ok ⟨"LOCAL", .AUTO_LOCAL, some "Passed all routing checks", 1⟩
                  | .ok none =>
                    .ok ⟨"LOCAL", .AUTO_LOCAL, some "Passed all routing checks", 1⟩

end IceAuto

namespace IceTransp

/-! ## transpiler.py — Transpiler (structural skeleton)

Parsing and SQL regeneration are performed by the third-party sqlglot
library; they are abstracted here as oracles.  `parse` returns, per
statement, either `none` (sqlglot yields `None` entries for empty
statements) or the statement, of which only the data
`detect_blacklisted_functions` inspects is retained: the `sql_name()` of
every `exp.Func` node `find_all` yields, in traversal order.  `tg`
abstracts `_apply_transforms` followed by `statement.sql(dialect="duckdb")`
for one statement (either may raise).  The `try`/`except` placement — the
only thing this embedding commits to — is exactly that of the source. -/

/-- A parsed statement, reduced to the function-call names
`find_all(exp.Func)`/`sql_name()` would report. -/
structure Stmt where
  funcs : List String
  deriving DecidableEq, Repr

/-- The `BLACKLIST` set of `detect_blacklisted_functions`, in source order
(set iteration order only affects the order of the result list). -/
def BLACKLIST : List String :=
  [ "SNOWFLAKE.CORTEX", "ML.PREDICT", "ML.EXPLAIN",
    "PARSE_XML", "XMLGET", "GET_DDL", "SYSTEM$",
    "ML.EVALUATE", "ML.TRAINING_INFO" ]

/-- The inner loop over one statement: every function whose upper-cased
name has a blacklist entry as a substring is appended (once per matching
entry, as in the source). -/
def blacklist_hits (st : Stmt) : List String :=
  st.funcs.foldl
    (fun acc fn =>
      acc ++ (BLACKLIST.filter fun b => strIn b (strUpper fn)).map fun _ => strUpper fn)
    []

/-- The statement loop of `detect_blacklisted_functions`.  `found` is
accumulated inside a bare `try`/`except: pass`, so a `None` statement
(whose `find_all` raises `AttributeError`) aborts the loop and the partial
accumulation is returned. -/
def scan_stmts : List (Option Stmt) → List String → List String
  | [], acc => acc
  | none :: _, acc => acc
  | some st :: rest, acc => scan_stmts rest (acc ++ blacklist_hits st)

/-- `detect_blacklisted_functions(sql)`: best-effort; a parse failure is
swallowed and yields the (empty) accumulation. -/
def detect_blacklisted_functions (parse : String → Except String (List (Option Stmt)))
    (sql : String) : List String :=
  match parse sql with
  | .error _ => []
  | .ok stmts => scan_stmts stmts []

/-- The per-statement transform-and-generate loop of `to_duckdb`,
collecting the regenerated texts and skipping `None` entries. -/
def process (tg : Stmt → Except String String) :
    List (Option Stmt) → Except String (List String)
  | [] => .ok []
  | none :: rest => process tg rest
  | some st :: rest =>
    match tg st with
    | .error e => .error e
    | .ok s =>
      match process tg rest with
      | .error e => .error e
      | .ok ss => .ok (s :: ss)

/-- `to_duckdb(sql)`: empty input short-circuits, a parse error raises
`TranspilationError("Failed to parse SQL: ...")`, any other exception
raises `TranspilationError("Failed to transpile SQL: ...")`. -/
def to_duckdb (parse : String → Except String (List (Option Stmt)))
    (tg : Stmt → Except String String) (sql : String) : Except String String :=
  if isBlank sql then .ok ""
  else
    match parse sql with
    | .error e => .error ("Failed to parse SQL: " ++ e)
    | .ok stmts =>
      if stmts.isEmpty then .ok sql
      else
        match process tg stmts with
        | .error e => .error ("Failed to transpile SQL: " ++ e)
        | .ok parts => .ok (String.intercalate ";\n" parts)

/-- `can_transpile(sql)`. -/
def can_transpile (parse : String → Except String (List (Option Stmt)))
    (tg : Stmt → Except String String) (sql : String) : Bool × Option String :=
  match to_duckdb parse tg sql with
  | .ok _ => (true, none)
  | .error e => (false, some e)

end IceTransp

/-! # Theorems -/

/-! ## Association-list (Python dict) lemmas -/

theorem dget_dset_self {α : Type} (d : List (String × α)) (k : String) (v : α) :
    dget (dset d k v) k = some v := by
  induction d with
  | nil => simp [dget, dset]
  | cons p rest ih => by_cases h : p.1 = k <;> simp [dget, dset, h, ih]

theorem dget_eq_none_iff {α : Type} (d : List (String × α)) (k : String) :
    dget d k = none ↔ k ∉ d.map Prod.fst := by
  induction d with
  | nil => simp [dget]
  | cons p rest ih =>
    simp only [dget, List.map_cons, List.mem_cons]
    by_cases h : p.1 = k
    · simp [h]
    · simp only [if_neg h, ih]
      constructor
      · intro hnot hmem
        rcases hmem with h1 | h2
        · exact h h1.symm
        · exact hnot h2
      · intro hnot h2
        exact hnot (Or.inr h2)

theorem dpop_of_dget_none {α : Type} (d : List (String × α)) (k : String)
    (h : dget d k = none) : dpop d k = d := by
  induction d with
  | nil => simp [dpop]
  | cons p rest ih =>
    by_cases hp : p.1 = k
    · simp [dget, hp] at h
    · simp [dget, hp] at h
      simp [dpop, hp, ih h]

theorem dget_dpop_self {α : Type} (d : List (String × α)) (k : String)
    (hnd : (d.map Prod.fst).Nodup) : dget (dpop d k) k = none := by
  induction d with
  | nil => simp [dpop, dget]
  | cons p rest ih =>
    simp only [List.map_cons, List.nodup_cons] at hnd
    by_cases hp : p.1 = k
    · subst hp
      simp only [dpop, if_pos rfl]
      exact (dget_eq_none_iff rest p.1).2 hnd.1
    · simp [dpop, hp, dget, ih hnd.2]

theorem mem_map_fst_dset {α : Type} (d : List (String × α)) (k : String) (v : α)
    (x : String) :
    x ∈ (dset d k v).map Prod.fst ↔ x ∈ d.map Prod.fst ∨ x = k := by
  induction d with
  | nil => simp [dset]
  | cons p rest ih =>
    by_cases hp : p.1 = k
    · have hd : dset (p :: rest) k v = (k, v) :: rest := by simp [dset, hp]
      rw [hd]
      simp only [List.map_cons, List.mem_cons, hp]
      tauto
    · have hd : dset (p :: rest) k v = p :: dset rest k v := by simp [dset, hp]
      rw [hd]
      simp only [List.map_cons, List.mem_cons, ih]
      tauto

theorem nodup_map_fst_dset {α : Type} (d : List (String × α)) (k : String) (v : α)
    (hnd : (d.map Prod.fst).Nodup) : ((dset d k v).map Prod.fst).Nodup := by
  induction d with
  | nil => simp [dset]
  | cons p rest ih =>
    simp only [List.map_cons, List.nodup_cons] at hnd
    by_cases hp : p.1 = k
    · simp only [dset, if_pos hp, List.map_cons, List.nodup_cons]
      exact ⟨hp ▸ hnd.1, hnd.2⟩
    · simp only [dset, if_neg hp, List.map_cons, List.nodup_cons]
      refine ⟨fun hmem => ?_, ih hnd.2⟩
      rcases (mem_map_fst_dset rest k v p.1).1 hmem with h | h
      · exact hnd.1 h
      · exact hp h

/-! ## C2 — WAL crash round-trip -/

/-- C2: after `mark_running(id)` is persisted, a fresh `StateManager` over
the same state (persistence round-trips the document) has `was_crash(id)`
return `true`, and as a durable side effect the running marker is removed
and the crash count becomes `1`; a subsequent `mark_success(id)` clears any
running marker and leaves the crash count unchanged — and in general
`mark_success` never touches any crash count. -/
theorem wal_crash_roundtrip
    (s : IceState.State) (id now inv now2 now3 : String)
    (hnd : (s.running.map Prod.fst).Nodup)
    (h0 : IceState.get_crash_count s id = 0) :
    (IceState.was_crash (IceState.mark_running s id now inv) id now2).1 = true ∧
    dget (IceState.was_crash (IceState.mark_running s id now inv) id now2).2.running id
      = none ∧
    IceState.get_crash_count
      (IceState.was_crash (IceState.mark_running s id now inv) id now2).2 id = 1 ∧
    dget (IceState.mark_success
      (IceState.was_crash (IceState.mark_running s id now inv) id now2).2 id
      now3).running id = none ∧
    IceState.get_crash_count
      (IceState.mark_success
        (IceState.was_crash (IceState.mark_running s id now inv) id now2).2 id now3)
      id = 1 ∧
    (∀ (t : IceState.State) (id2 id3 now4 : String),
      IceState.get_crash_count (IceState.mark_success t id2 now4) id3 =
        IceState.get_crash_count t id3) := by
  have hrun : dget (IceState.mark_running s id now inv).running id
      = some ⟨now, inv⟩ := by
    simp [IceState.mark_running, dget_dset_self]
  have hrun_nd : ((IceState.mark_running s id now inv).running.map Prod.fst).Nodup := by
    simpa [IceState.mark_running] using nodup_map_fst_dset s.running id ⟨now, inv⟩ hnd
  have hwc : IceState.was_crash (IceState.mark_running s id now inv) id now2
      = (true, IceState.mark_crash (IceState.mark_running s id now inv) id
          (some "Previous run didn\x27t complete (OOM?)") now2) := by
    simp [IceState.was_crash, hrun]
  have hcount0 : ((dget s.crashes id).getD ⟨0, none, []⟩).count = 0 := by
    unfold IceState.get_crash_count at h0
    cases h : dget s.crashes id with
    | none => simp [h]
    | some e => simp [h] at h0 ⊢; exact h0
  have hs1crashes : (IceState.mark_running s id now inv).crashes = s.crashes := rfl
  have hcount1 : IceState.get_crash_count
      (IceState.mark_crash (IceState.mark_running s id now inv) id
        (some "Previous run didn\x27t complete (OOM?)") now2) id = 1 := by
    unfold IceState.mark_crash IceState.get_crash_count
    simp only [hs1crashes, dget_dset_self]
    simp [hcount0]
  have hrunning_gone : dget (IceState.mark_crash (IceState.mark_running s id now inv) id
      (some "Previous run didn\x27t complete (OOM?)") now2).running id = none := by
    simp only [IceState.mark_crash]
    exact dget_dpop_self _ id hrun_nd
  refine ⟨by rw [hwc], by rw [hwc]; exact hrunning_gone, by rw [hwc]; exact hcount1,
    ?_, ?_, ?_⟩
  · rw [hwc]
    simp only [IceState.mark_success]
    rw [dpop_of_dget_none _ id hrunning_gone]
    exact hrunning_gone
  · rw [hwc]
    simpa [IceState.mark_success, IceState.get_crash_count] using hcount1
  · intro t id2 id3 now4
    simp [IceState.mark_success, IceState.get_crash_count]

/-- C2 witness at a concrete state. -/
theorem wal_crash_roundtrip_witness :
    IceState.get_crash_count IceState.default_state "m" = 0 ∧
    (IceState.was_crash
      (IceState.mark_running IceState.default_state "m" "t1" "i1") "m" "t2").1 = true ∧
    IceState.get_crash_count
      (IceState.was_crash
        (IceState.mark_running IceState.default_state "m" "t1" "i1") "m" "t2").2 "m"
      = 1 := by
  have h := wal_crash_roundtrip IceState.default_state "m" "t1" "i1" "t2" "t3"
    (by simp [IceState.default_state]) rfl
  exact ⟨rfl, h.1, h.2.2.1⟩

/-! ## C3 — Sync verification, C10 — vacuous verification -/

theorem sync_loop_all_fail (cfg : IceSync.SyncConfig) (env : IceSync.SyncEnv)
    (tid se te e : String)
    (hfail : ∀ a, IceSync.attempt_once cfg env a = .error e) :
    ∀ r a, 1 ≤ r →
      IceSync.sync_loop cfg env tid se te a r =
        ({ success := false, table_id := tid, source_engine := se,
           target_engine := te, error := some e, attempt := a + r - 1 },
         (List.range (r - 1)).map
           (fun i => cfg.retry_delay_seconds * ((a + i : Nat) : ℚ))) := by
  intro r
  induction r with
  | zero => omega
  | succ r' ih =>
    intro a _
    by_cases hr : r' = 0
    · subst hr
      simp [IceSync.sync_loop, hfail a]
    · have h1 : 1 ≤ r' := Nat.one_le_iff_ne_zero.2 hr
      have hrest := ih (a + 1) h1
      simp only [IceSync.sync_loop, hfail a, if_neg hr, hrest]
      simp only [Prod.mk.injEq]
      refine ⟨?_, ?_⟩
      · have ha : a + 1 + r' - 1 = a + (r' + 1) - 1 := by omega
        rw [ha]
      · have hrr : r' + 1 - 1 = (r' - 1) + 1 := by omega
        rw [hrr, List.range_succ_eq_map, List.map_cons, List.map_map]
        refine List.cons_eq_cons.mpr ⟨by norm_num, ?_⟩
        apply List.map_congr_left
        intro i _
        simp only [Function.comp_apply, Nat.succ_eq_add_one]
        have hix : a + 1 + i = a + (i + 1) := by omega
        rw [hix]

/-- C3: with verification enabled, a first attempt whose copy succeeds and
whose source and target counts agree returns `verified=true, success=true`
at attempt 1; counts `N` vs `N−1` on every attempt exhaust all
`max_retries` attempts — sleeping `base_delay * attempt` between attempts —
and end with `success=false`, `attempt=max_retries` and the row-count
mismatch error; with verification disabled the comparison is skipped and
`verified=false`. -/
theorem sync_verification :
    (∀ (cfg : IceSync.SyncConfig) (env : IceSync.SyncEnv) (schema table se te : String)
       (n : Nat),
      cfg.verify_row_counts = true → 1 ≤ cfg.max_retries →
      env.copy 1 = .ok () → env.sourceRead 1 = some n → env.targetRead 1 = some n →
      IceSync.sync_table cfg env schema table se te =
        ({ success := true, table_id := schema ++ "." ++ table, source_engine := se,
           target_engine := te, source_row_count := n, target_row_count := n,
           verified := true, attempt := 1 }, [])) ∧
    (∀ (cfg : IceSync.SyncConfig) (env : IceSync.SyncEnv) (schema table se te : String)
       (n : Nat),
      cfg.verify_row_counts = true → 1 ≤ cfg.max_retries → 1 ≤ n →
      (∀ a, env.copy a = .ok ()) → (∀ a, env.sourceRead a = some n) →
      (∀ a, env.targetRead a = some (n - 1)) →
      IceSync.sync_table cfg env schema table se te =
        ({ success := false, table_id := schema ++ "." ++ table, source_engine := se,
           target_engine := te,
           error := some s!"Row count mismatch: source={n}, target={n-1}",
           attempt := cfg.max_retries },
         (List.range (cfg.max_retries - 1)).map
           (fun i => cfg.retry_delay_seconds * ((1 + i : Nat) : ℚ)))) ∧
    (∀ (cfg : IceSync.SyncConfig) (env : IceSync.SyncEnv) (schema table se te : String)
       (n : Nat),
      cfg.verify_row_counts = false → 1 ≤ cfg.max_retries →
      env.copy 1 = .ok () → env.sourceRead 1 = some n →
      IceSync.sync_table cfg env schema table se te =
        ({ success := true, table_id := schema ++ "." ++ table, source_engine := se,
           target_engine := te, source_row_count := n, target_row_count := n,
           verified := false, attempt := 1 }, [])) := by
  refine ⟨?_, ?_, ?_⟩
  · intro cfg env schema table se te n hv hm hc hs ht
    obtain ⟨r, hr⟩ : ∃ r, cfg.max_retries = r + 1 := ⟨cfg.max_retries - 1, by omega⟩
    unfold IceSync.sync_table
    rw [hr]
    simp [IceSync.sync_loop, IceSync.attempt_once, hc, hs, ht, hv, IceSync.get_row_count]
  · intro cfg env schema table se te n hv hm hn hc hs ht
    have hfail : ∀ a, IceSync.attempt_once cfg env a =
        .error s!"Row count mismatch: source={n}, target={n-1}" := by
      intro a
      have hne : n ≠ n - 1 := by omega
      simp [IceSync.attempt_once, hc a, hs a, ht a, hv, IceSync.get_row_count, hne]
    have := sync_loop_all_fail cfg env (schema ++ "." ++ table) se te _ hfail
      cfg.max_retries 1 hm
    unfold IceSync.sync_table
    rw [this]
    have ha : 1 + cfg.max_retries - 1 = cfg.max_retries := by omega
    rw [ha]
  · intro cfg env schema table se te n hv hm hc hs
    obtain ⟨r, hr⟩ : ∃ r, cfg.max_retries = r + 1 := ⟨cfg.max_retries - 1, by omega⟩
    unfold IceSync.sync_table
    rw [hr]
    simp [IceSync.sync_loop, IceSync.attempt_once, hc, hs, hv, IceSync.get_row_count]

/-- C3 witness: concrete environments exercising all three branches with
the default config (3 retries, 1s base delay). -/
theorem sync_verification_witness :
    IceSync.sync_table {} ⟨fun _ => some 5, fun _ => some 5, fun _ => .ok ()⟩
        "s" "t" "local" "cloud" =
      ({ success := true, table_id := "s.t", source_engine := "local",
         target_engine := "cloud", source_row_count := 5, target_row_count := 5,
         verified := true, attempt := 1 }, []) ∧
    IceSync.sync_table {} ⟨fun _ => some 5, fun _ => some 4, fun _ => .ok ()⟩
        "s" "t" "local" "cloud" =
      ({ success := false, table_id := "s.t", source_engine := "local",
         target_engine := "cloud",
         error := some "Row count mismatch: source=5, target=4",
         attempt := 3 }, [1, 2]) ∧
    IceSync.sync_table { verify_row_counts := false }
        ⟨fun _ => some 5, fun _ => some 4, fun _ => .ok ()⟩
        "s" "t" "local" "cloud" =
      ({ success := true, table_id := "s.t", source_engine := "local",
         target_engine := "cloud", source_row_count := 5, target_row_count := 5,
         verified := false, attempt := 1 }, []) := by
  refine ⟨?_, ?_, ?_⟩
  · exact sync_verification.1 {} ⟨fun _ => some 5, fun _ => some 5, fun _ => .ok ()⟩
      "s" "t" "local" "cloud" 5 rfl (by decide) rfl rfl rfl
  · have h := sync_verification.2.1 {}
      ⟨fun _ => some 5, fun _ => some 4, fun _ => .ok ()⟩
      "s" "t" "local" "cloud" 5 rfl (by decide) (by decide)
      (fun _ => rfl) (fun _ => rfl) (fun _ => rfl)
    rw [h]
    norm_num [List.range_succ]
    exact ⟨rfl, rfl⟩
  · exact sync_verification.2.2 { verify_row_counts := false }
      ⟨fun _ => some 5, fun _ => some 4, fun _ => .ok ()⟩
      "s" "t" "local" "cloud" 5 rfl (by decide) rfl rfl

/-- C10: `_get_row_count` absorbs a missing connection or a failing query
into `0`; consequently a sync whose copy succeeds while both row-count
reads fail compares `0 == 0` and reports `success=true, verified=true` with
both counts `0` — nothing was actually verified. -/
theorem rowcount_vacuous_verification
    (cfg : IceSync.SyncConfig) (env : IceSync.SyncEnv) (schema table se te : String)
    (hv : cfg.verify_row_counts = true) (hm : 1 ≤ cfg.max_retries)
    (hc : env.copy 1 = .ok ()) (hs : env.sourceRead 1 = none)
    (ht : env.targetRead 1 = none) :
    IceSync.get_row_count (env.sourceRead 1) = 0 ∧
    IceSync.sync_table cfg env schema table se te =
      ({ success := true, table_id := schema ++ "." ++ table, source_engine := se,
         target_engine := te, source_row_count := 0, target_row_count := 0,
         verified := true, attempt := 1 }, []) := by
  constructor
  · simp [IceSync.get_row_count, hs]
  · obtain ⟨r, hr⟩ : ∃ r, cfg.max_retries = r + 1 := ⟨cfg.max_retries - 1, by omega⟩
    unfold IceSync.sync_table
    rw [hr]
    simp [IceSync.sync_loop, IceSync.attempt_once, hc, hs, ht, hv, IceSync.get_row_count]

/-! ## C1 — Override supremacy -/

/-- C1: a model whose config sets `icebreaker_route` to `"cloud"` or
`"local"` is routed to that venue immediately with reason USER_OVERRIDE at
gate 1, for every transpiler behaviour, SQL text, source list, crash
history, historical stats and volume estimate (no later gate is reached). -/
theorem override_supremacy
    (tr : IceTraffic.TranspOracle) (cfg : IceTraffic.TrafficConfig)
    (ls cs mkvs ckvs : List (String × PyVal))
    (sql : String) (sources : Option (List PyVal)) (v : String)
    (hc : dget mkvs "config" = some (.dict ckvs))
    (hr : dget ckvs "icebreaker_route" = some (.str v))
    (hv : v = "cloud" ∨ v = "local") :
    IceTraffic.decide tr cfg ls cs (.dict mkvs) sql sources =
      .ok ⟨if v = "cloud" then "CLOUD" else "LOCAL", .USER_OVERRIDE,
           some ("icebreaker_route=\x27" ++ v ++ "\x27"), some 1⟩ := by
  rcases hv with hv | hv <;> subst hv <;>
    simp [IceTraffic.decide, IceTraffic.gate_intent, asDictE, hc, hr]

/-- C1 witness: both override values on a concrete model, with a transpiler
oracle that would reject the SQL and a crash history that would fire gate 4
— the override still wins. -/
theorem override_supremacy_witness :
    IceTraffic.decide ⟨fun _ => ["SYSTEM$FOO"], fun _ => (false, some "boom")⟩ {}
        [("crashes", .dict [("u", .dict [])])] []
        (.dict [("unique_id", .str "u"),
                ("config", .dict [("icebreaker_route", .str "cloud")])])
        "SELECT SYSTEM$FOO()" none =
      .ok ⟨"CLOUD", .USER_OVERRIDE, some "icebreaker_route=\x27cloud\x27", some 1⟩ ∧
    IceTraffic.decide ⟨fun _ => ["SYSTEM$FOO"], fun _ => (false, some "boom")⟩ {}
        [("crashes", .dict [("u", .dict [])])] []
        (.dict [("unique_id", .str "u"),
                ("config", .dict [("icebreaker_route", .str "local")])])
        "SELECT SYSTEM$FOO()" none =
      .ok ⟨"LOCAL", .USER_OVERRIDE, some "icebreaker_route=\x27local\x27", some 1⟩ := by
  constructor
  · exact override_supremacy _ _ _ _ _ _ _ _ "cloud" rfl rfl (Or.inl rfl)
  · exact override_supremacy _ _ _ _ _ _ _ _ "local" rfl rfl (Or.inr rfl)

/-! ## C6 — Gate exception containment (refuted as stated) -/

/-- C6 counterexample: a malformed config value
(`estimated_size_gb: "huge"`) makes gate 6 raise a `TypeError`
(`str > float`) and `decide()` propagates it to the caller instead of
treating the gate as "did not fire"; there is no exception handling in the
gate chain. -/
theorem gate_exception_cex :
    IceTraffic.decide ⟨fun _ => [], fun _ => (true, none)⟩ {} [] []
      (.dict [("name", .str "m"), ("unique_id", .str "u"),
              ("config", .dict [("estimated_size_gb", .str "huge")])])
      "SELECT 1" none = .error .typeError := rfl

/-- C6 amended: `decide()` returns a `RoutingDecision` (never "unknown")
whenever each of the six gates evaluates without raising on the given
inputs; the source contains no per-gate exception handling, so a gate that
raises propagates the exception to the caller. -/
theorem gate_exception_amended
    (tr : IceTraffic.TranspOracle) (cfg : IceTraffic.TrafficConfig)
    (ls cs : List (String × PyVal)) (model : PyVal) (sql : String)
    (sources : Option (List PyVal)) (mkvs : List (String × PyVal))
    (o1 o2 o3 o4 o5 o6 : Option IceTraffic.RoutingDecision)
    (hm : asDictE model = .ok mkvs)
    (h1 : IceTraffic.gate_intent ((dget mkvs "config").getD (.dict [])) = .ok o1)
    (h2 : IceTraffic.gate_gravity mkvs sources = .ok o2)
    (h3 : IceTraffic.gate_capability tr sql mkvs = .ok o3)
    (h4 : IceTraffic.gate_stability ls mkvs = .ok o4)
    (h5 : IceTraffic.gate_complexity cs cfg mkvs = .ok o5)
    (h6 : IceTraffic.gate_physics cfg mkvs = .ok o6) :
    ∃ d, IceTraffic.decide tr cfg ls cs model sql sources = .ok d := by
  cases o1 with
  | some d => exact ⟨d, by simp [IceTraffic.decide, hm, h1]⟩
  | none =>
  cases o2 with
  | some d => exact ⟨d, by simp [IceTraffic.decide, hm, h1, h2]⟩
  | none =>
  cases o3 with
  | some d => exact ⟨d, by simp [IceTraffic.decide, hm, h1, h2, h3]⟩
  | none =>
  cases o4 with
  | some d => exact ⟨d, by simp [IceTraffic.decide, hm, h1, h2, h3, h4]⟩
  | none =>
  cases o5 with
  | some d => exact ⟨d, by simp [IceTraffic.decide, hm, h1, h2, h3, h4, h5]⟩
  | none =>
  cases o6 with
  | some d => exact ⟨d, by simp [IceTraffic.decide, hm, h1, h2, h3, h4, h5, h6]⟩
  | none =>
    exact ⟨⟨"LOCAL", .DEFAULT_LOCAL, none, none⟩,
      by simp [IceTraffic.decide, hm, h1, h2, h3, h4, h5, h6]⟩

/-- C6 witness: a benign model on which every gate evaluates cleanly. -/
theorem gate_exception_witness :
    ∃ d, IceTraffic.decide ⟨fun _ => [], fun _ => (true, none)⟩ {} [] []
      (.dict [("name", .str "m"), ("unique_id", .str "u"), ("config", .dict [])])
      "SELECT 1" none = .ok d :=
  gate_exception_amended ⟨fun _ => [], fun _ => (true, none)⟩ {} [] []
    (.dict [("name", .str "m"), ("unique_id", .str "u"), ("config", .dict [])])
    "SELECT 1" none _ none none none none none none rfl rfl rfl rfl rfl rfl rfl

/-! ## C9 — Override matching is case-sensitive in TrafficController only -/

/-- C9: `TrafficController._gate_intent` fires only on the exact lowercase
strings — any other value (e.g. `"CLOUD"`) leaves the gate silent and (when
the remaining gates are clean) `decide()` falls through to DEFAULT_LOCAL —
whereas `AutoRouter.decide` lowercases the override first and so honours
mixed-case values. -/
theorem override_case_sensitivity :
    (∀ (ckvs : List (String × PyVal)) (s : String),
      dget ckvs "icebreaker_route" = some (.str s) →
      s ≠ "cloud" → s ≠ "local" →
      IceTraffic.gate_intent (.dict ckvs) = .ok none) ∧
    (∀ (tr : IceTraffic.TranspOracle) (cfg : IceTraffic.TrafficConfig)
       (ls cs mkvs ckvs : List (String × PyVal)) (sql : String)
       (sources : Option (List PyVal)) (s : String),
      dget mkvs "config" = some (.dict ckvs) →
      dget ckvs "icebreaker_route" = some (.str s) →
      s ≠ "cloud" → s ≠ "local" →
      IceTraffic.gate_gravity mkvs sources = .ok none →
      IceTraffic.gate_capability tr sql mkvs = .ok none →
      IceTraffic.gate_stability ls mkvs = .ok none →
      IceTraffic.gate_complexity cs cfg mkvs = .ok none →
      IceTraffic.gate_physics cfg mkvs = .ok none →
      IceTraffic.decide tr cfg ls cs (.dict mkvs) sql sources =
        .ok ⟨"LOCAL", .DEFAULT_LOCAL, none, none⟩) ∧
    (∀ (re : IceAuto.ReOracle) (mgb : ℚ) (cat : Option (PyVal → ℚ))
       (hist qs : List (String × PyVal)) (ct : ℚ) (sql : String)
       (mkvs ckvs : List (String × PyVal)) (sources : Option (List PyVal)) (s : String),
      dget mkvs "config" = some (.dict ckvs) →
      dget ckvs "icebreaker_route" = some (.str s) →
      strLower s = "cloud" →
      IceAuto.decide re mgb cat hist qs ct sql (.dict mkvs) sources =
        .ok ⟨"CLOUD", .USER_OVERRIDE, some "icebreaker_route=\x27cloud\x27", 1⟩) ∧
    (∀ (re : IceAuto.ReOracle) (mgb : ℚ) (cat : Option (PyVal → ℚ))
       (hist qs : List (String × PyVal)) (ct : ℚ) (sql : String)
       (mkvs ckvs : List (String × PyVal)) (sources : Option (List PyVal)) (s : String),
      dget mkvs "config" = some (.dict ckvs) →
      dget ckvs "icebreaker_route" = some (.str s) →
      strLower s = "local" →
      IceAuto.decide re mgb cat hist qs ct sql (.dict mkvs) sources =
        .ok ⟨"LOCAL", .USER_OVERRIDE_LOCAL, some "icebreaker_route=\x27local\x27", 1⟩) := by
  refine ⟨?_, ?_, ?_, ?_⟩
  · intro ckvs s hr h1 h2
    simp [IceTraffic.gate_intent, asDictE, hr, h1, h2]
  · intro tr cfg ls cs mkvs ckvs sql sources s hc hr h1 h2 hg2 hg3 hg4 hg5 hg6
    have hgi : IceTraffic.gate_intent ((dget mkvs "config").getD (.dict []))
        = .ok none := by
      rw [hc]
      simp [IceTraffic.gate_intent, asDictE, hr, h1, h2]
    simp [IceTraffic.decide, asDictE, hgi, hg2, hg3, hg4, hg5, hg6]
  · intro re mgb cat hist qs ct sql mkvs ckvs sources s hc hr htl
    have hs : s ≠ "" := by
      intro h
      subst h
      exact absurd htl (by decide)
    simp [IceAuto.decide, asDictE, hc, IceAuto.step_override, hr, pyTruthy, hs, htl]
  · intro re mgb cat hist qs ct sql mkvs ckvs sources s hc hr htl
    have hs : s ≠ "" := by
      intro h
      subst h
      exact absurd htl (by decide)
    have hnc : ¬(strLower s = "cloud") := by
      rw [htl]
      decide
    simp [IceAuto.decide, asDictE, hc, IceAuto.step_override, hr, pyTruthy, hs, htl, hnc]

/-- C9 witness: the value `"CLOUD"` — ignored by `TrafficController`
(DEFAULT_LOCAL through the whole chain) and honoured by `AutoRouter`. -/
theorem override_case_sensitivity_witness :
    IceTraffic.gate_intent (.dict [("icebreaker_route", .str "CLOUD")]) = .ok none ∧
    IceTraffic.decide ⟨fun _ => [], fun _ => (true, none)⟩ {} [] []
        (.dict [("name", .str "m"), ("unique_id", .str "u"),
                ("config", .dict [("icebreaker_route", .str "CLOUD")])])
        "SELECT 1" none = .ok ⟨"LOCAL", .DEFAULT_LOCAL, none, none⟩ ∧
    IceAuto.decide ⟨fun _ _ => none⟩ 5 none [] [] (1/10) "SELECT 1"
        (.dict [("name", .str "m"),
                ("config", .dict [("icebreaker_route", .str "CLOUD")])]) none =
      .ok ⟨"CLOUD", .USER_OVERRIDE, some "icebreaker_route=\x27cloud\x27", 1⟩ := by
  refine ⟨?_, ?_, ?_⟩
  · exact override_case_sensitivity.1 [("icebreaker_route", .str "CLOUD")] "CLOUD"
      rfl (by decide) (by decide)
  · exact override_case_sensitivity.2.1 ⟨fun _ => [], fun _ => (true, none)⟩ {} [] []
      [("name", .str "m"), ("unique_id", .str "u"),
       ("config", .dict [("icebreaker_route", .str "CLOUD")])]
      [("icebreaker_route", .str "CLOUD")] "SELECT 1" none "CLOUD"
      rfl rfl (by decide) (by decide) rfl rfl rfl rfl rfl
  · exact override_case_sensitivity.2.2.1 ⟨fun _ _ => none⟩ 5 none [] [] (1/10)
      "SELECT 1"
      [("name", .str "m"), ("config", .dict [("icebreaker_route", .str "CLOUD")])]
      [("icebreaker_route", .str "CLOUD")] none "CLOUD" rfl rfl rfl
theorem rowcount_vacuous_verification_witness :
    IceSync.sync_table {} ⟨fun _ => none, fun _ => none, fun _ => .ok ()⟩
        "s" "t" "local" "cloud" =
      ({ success := true, table_id := "s.t", source_engine := "local",
         target_engine := "cloud", source_row_count := 0, target_row_count := 0,
         verified := true, attempt := 1 }, []) :=
  (rowcount_vacuous_verification {} ⟨fun _ => none, fun _ => none, fun _ => .ok ()⟩
    "s" "t" "local" "cloud" rfl (by decide) rfl rfl rfl).2

/-! ## C5 — Blacklist detection vs. transpile failure (corrected) -/

theorem mem_foldl_append {α β : Type} (g : β → List α) :
    ∀ (l : List β) (acc : List α) (x : α), x ∈ acc →
      x ∈ l.foldl (fun a e => a ++ g e) acc := by
  intro l
  induction l with
  | nil => intro acc x hx; simpa using hx
  | cons b rest ih =>
    intro acc x hx
    exact ih (acc ++ g b) x (List.mem_append_left _ hx)

theorem mem_foldl_append_of_mem {α β : Type} (g : β → List α) :
    ∀ (l : List β) (acc : List α) (x : α) (b : β), b ∈ l → x ∈ g b →
      x ∈ l.foldl (fun a e => a ++ g e) acc := by
  intro l
  induction l with
  | nil => intro acc x b hb; simp at hb
  | cons b' rest ih =>
    intro acc x b hb hx
    rcases List.mem_cons.1 hb with hb | hb
    · subst hb
      exact mem_foldl_append g rest (acc ++ g b) x (List.mem_append_right _ hx)
    · exact ih (acc ++ g b') x b hb hx

theorem mem_blacklist_hits (st : IceTransp.Stmt) (fn b : String)
    (hfn : fn ∈ st.funcs) (hb : b ∈ IceTransp.BLACKLIST)
    (hsub : strIn b (strUpper fn) = true) :
    strUpper fn ∈ IceTransp.blacklist_hits st := by
  unfold IceTransp.blacklist_hits
  refine mem_foldl_append_of_mem _ st.funcs [] (strUpper fn) fn hfn ?_
  refine List.mem_map.2 ⟨b, ?_, rfl⟩
  exact List.mem_filter.2 ⟨hb, hsub⟩

theorem scan_stmts_append (stmts : List (Option IceTransp.Stmt)) :
    ∀ acc, IceTransp.scan_stmts stmts acc = acc ++ IceTransp.scan_stmts stmts [] := by
  induction stmts with
  | nil => intro acc; simp [IceTransp.scan_stmts]
  | cons o rest ih =>
    intro acc
    cases o with
    | none => simp [IceTransp.scan_stmts]
    | some st =>
      simp only [IceTransp.scan_stmts]
      rw [ih (acc ++ IceTransp.blacklist_hits st), ih ([] ++ IceTransp.blacklist_hits st)]
      simp [List.append_assoc]

/-- C5 as stated is refuted (see `blacklist_detection_cex`): both
`detect_blacklisted_functions` and `to_duckdb` call the same
`sqlglot.parse` on the whole SQL string, so a parse error anywhere in the
SQL silences detection too.  Amended: (1) a parse failure yields `[]`
(never an exception); (2) when the parse succeeds, with no `None`
statements, and some statement contains a call whose upper-cased name
matches a blacklist entry, `detect_blacklisted_functions` is non-empty
even when the full transpile `to_duckdb` fails with a
transform/generation error. -/
theorem blacklist_detection_amended :
    (∀ (parse : String → Except String (List (Option IceTransp.Stmt)))
       (sql e : String), parse sql = .error e →
      IceTransp.detect_blacklisted_functions parse sql = []) ∧
    (∀ (parse : String → Except String (List (Option IceTransp.Stmt)))
       (tg : IceTransp.Stmt → Except String String) (sql : String)
       (stmts : List (Option IceTransp.Stmt)) (st : IceTransp.Stmt)
       (fn b e : String),
      parse sql = .ok stmts →
      (∀ x ∈ stmts, x ≠ none) →
      some st ∈ stmts →
      fn ∈ st.funcs →
      b ∈ IceTransp.BLACKLIST →
      strIn b (strUpper fn) = true →
      IceTransp.to_duckdb parse tg sql = .error e →
      IceTransp.detect_blacklisted_functions parse sql ≠ []) := by
  constructor
  · intro parse sql e hp
    simp [IceTransp.detect_blacklisted_functions, hp]
  · intro parse tg sql stmts st fn b e hp hall hst hfn hb hsub _
    have hmem : strUpper fn ∈ IceTransp.scan_stmts stmts [] := by
      clear hp
      induction stmts with
      | nil => simp at hst
      | cons o rest ih =>
        cases o with
        | none => exact absurd rfl (hall none (List.mem_cons_self _ _))
        | some st' =>
          simp only [IceTransp.scan_stmts]
          rw [scan_stmts_append rest]
          rcases List.mem_cons.1 hst with hst' | hst'
          · have hst'' : st' = st := by injection hst'.symm
            subst hst''
            exact List.mem_append_left _
              (List.mem_append_right _ (mem_blacklist_hits st' fn b hfn hb hsub))
          · exact List.mem_append_right _
              (ih (fun x hx => hall x (List.mem_cons_of_mem _ hx)) hst')
    unfold IceTransp.detect_blacklisted_functions
    rw [hp]
    exact List.ne_nil_of_mem hmem

/-- C5 counterexample: the claim as stated, at a concrete input.  The SQL
contains a blacklisted `PARSE_XML(...)` call and a separate, unrelated
syntax error (the trailing `((`); sqlglot's `parse` — shared by
`detect_blacklisted_functions` and `to_duckdb` and here instantiated to
raise on this malformed input, as the real parser does — makes
`to_duckdb` fail with a parse error while `detect_blacklisted_functions`
returns the empty list rather than naming `PARSE_XML`. -/
theorem blacklist_detection_cex :
    strIn "PARSE_XML" "SELECT PARSE_XML(col) FROM t WHERE ((" = true ∧
    IceTransp.detect_blacklisted_functions (fun _ => .error "ParseError")
      "SELECT PARSE_XML(col) FROM t WHERE ((" = [] ∧
    IceTransp.to_duckdb (fun _ => .error "ParseError") (fun _ => .ok "")
      "SELECT PARSE_XML(col) FROM t WHERE ((" =
      .error "Failed to parse SQL: ParseError" := by
  exact ⟨by decide, rfl, rfl⟩

/-- C5 witness: a failing parse yields `[]`; a successful parse of a
statement containing `PARSE_XML` yields a non-empty detection even though
generation fails and so `to_duckdb` raises. -/
theorem blacklist_detection_witness :
    IceTransp.detect_blacklisted_functions (fun _ => .error "ParseError") "q" = [] ∧
    IceTransp.detect_blacklisted_functions
      (fun _ => .ok [some ⟨["PARSE_XML"]⟩]) "SELECT PARSE_XML(c) FROM t" ≠ [] := by
  constructor
  · exact blacklist_detection_amended.1 _ "q" "ParseError" rfl
  · exact blacklist_detection_amended.2
      (fun _ => .ok [some ⟨["PARSE_XML"]⟩]) (fun _ => .error "unsupported construct")
      "SELECT PARSE_XML(c) FROM t" [some ⟨["PARSE_XML"]⟩] ⟨["PARSE_XML"]⟩
      "PARSE_XML" "PARSE_XML" "Failed to transpile SQL: unsupported construct"
      rfl (by simp) (by simp) (by simp) (by decide) (by decide) rfl

/-! ## C7 — Catalog carve-out -/

/-- C7: whenever the SQL references the reserved `iceberg_catalog.*.*`
namespace (even embedded in a multi-join query), `_detect_external_sources`
returns `None` immediately — for every regex-engine behaviour on the other
patterns and every source list, including sources carrying external
markers — so the external-source check never fires; and when none of the
other checks fires either, the decision is LOCAL (AUTO_LOCAL). -/
theorem catalog_carveout :
    (∀ (re : IceAuto.ReOracle) (sql : String) (sources : Option (List PyVal)),
      IceAuto.is_iceberg_catalog_source sql = true →
      IceAuto.detect_external_sources re sql sources = .ok none) ∧
    (∀ (re : IceAuto.ReOracle) (mgb : ℚ) (cat : Option (PyVal → ℚ))
       (hist qs : List (String × PyVal)) (ct : ℚ) (sql : String)
       (mkvs ckvs : List (String × PyVal)) (sources : Option (List PyVal)),
      IceAuto.is_iceberg_catalog_source sql = true →
      dget mkvs "config" = some (.dict ckvs) →
      dget ckvs "icebreaker_route" = none →
      IceAuto.has_local_failures hist ((dget mkvs "name").getD (.str "unknown"))
        = .ok false →
      IceAuto.detect_cloud_functions sql = none →
      IceAuto.check_cloud_dependencies hist mkvs = .ok none →
      (∀ est, cat = some est → ¬(est (.dict mkvs) > mgb)) →
      IceAuto.check_historical_cost qs ((dget mkvs "name").getD (.str "unknown"))
        = .ok none →
      IceAuto.decide re mgb cat hist qs ct sql (.dict mkvs) sources =
        .ok ⟨"LOCAL", .AUTO_LOCAL, some "Passed all routing checks", 1⟩) := by
  have hext : ∀ (re : IceAuto.ReOracle) (sql : String) (sources : Option (List PyVal)),
      IceAuto.is_iceberg_catalog_source sql = true →
      IceAuto.detect_external_sources re sql sources = .ok none := by
    intro re sql sources hice
    simp [IceAuto.detect_external_sources, hice]
  refine ⟨hext, ?_⟩
  intro re mgb cat hist qs ct sql mkvs ckvs sources hice hc hr hfail hcf hdep hvol hcost
  have hov : IceAuto.step_override ckvs = .ok none := by
    simp [IceAuto.step_override, hr, pyTruthy]
  rcases cat with _ | est
  · simp [IceAuto.decide, asDictE, hc, hov, hfail, hext re sql sources hice, hcf,
      hdep, hcost]
  · have hv := hvol est rfl
    simp [IceAuto.decide, asDictE, hc, hov, hfail, hext re sql sources hice, hcf,
      hdep, hcost, hv]

/-- C7 witness: a multi-join query over `iceberg_catalog.analytics.orders`,
with a source list explicitly marked external (the carve-out still wins)
and otherwise clean signals. -/
theorem catalog_carveout_witness :
    IceAuto.detect_external_sources ⟨fun _ _ => none⟩
        "SELECT * FROM iceberg_catalog.analytics.orders AS o JOIN other_tbl t ON o.id = t.id"
        (some [.dict [("name", .str "ext"), ("meta", .dict [("external", .bool true)])]])
      = .ok none ∧
    IceAuto.decide ⟨fun _ _ => none⟩ 5 none [] [] (1/10)
        "SELECT * FROM iceberg_catalog.analytics.orders AS o JOIN other_tbl t ON o.id = t.id"
        (.dict [("name", .str "m"), ("config", .dict [])])
        (some [.dict [("name", .str "ext"), ("meta", .dict [("external", .bool true)])]])
      = .ok ⟨"LOCAL", .AUTO_LOCAL, some "Passed all routing checks", 1⟩ := by
  constructor
  · exact catalog_carveout.1 ⟨fun _ _ => none⟩
      "SELECT * FROM iceberg_catalog.analytics.orders AS o JOIN other_tbl t ON o.id = t.id"
      (some [.dict [("name", .str "ext"), ("meta", .dict [("external", .bool true)])]])
      (by decide)
  · exact catalog_carveout.2 ⟨fun _ _ => none⟩ 5 none [] [] (1/10)
      "SELECT * FROM iceberg_catalog.analytics.orders AS o JOIN other_tbl t ON o.id = t.id"
      [("name", .str "m"), ("config", .dict [])] []
      (some [.dict [("name", .str "ext"), ("meta", .dict [("external", .bool true)])]])
      (by decide) rfl rfl rfl (by decide) rfl
      (fun est h => nomatch h) rfl

/-! ## C8 — Topological sync ordering: support lemmas -/

theorem strlist_contains_iff (l : List String) (x : String) :
    l.contains x = true ↔ x ∈ l := by
  simp [List.contains_iff_exists_mem_beq]

theorem dget_mem {α : Type} (d : List (String × α)) (k : String) (v : α)
    (h : dget d k = some v) : (k, v) ∈ d := by
  induction d with
  | nil => simp [dget] at h
  | cons p rest ih =>
    by_cases hp : p.1 = k
    · simp only [dget, if_pos hp] at h
      obtain ⟨p1, p2⟩ := p
      simp only at hp
      injection h with h2
      subst hp
      subst h2
      exact List.mem_cons_self _ _
    · simp only [dget, if_neg hp] at h
      exact List.mem_cons_of_mem _ (ih h)

theorem dset_append_of_not_mem {α : Type} (d : List (String × α)) (k : String) (v : α)
    (h : k ∉ d.map Prod.fst) : dset d k v = d ++ [(k, v)] := by
  induction d with
  | nil => simp [dset]
  | cons p rest ih =>
    simp only [List.map_cons, List.mem_cons] at h
    push_neg at h
    have hne : ¬(p.1 = k) := fun he => h.1 he.symm
    simp [dset, hne, ih h.2]

theorem tableIds_eq_aux (ts : List IceSync.Tbl) :
    ∀ acc : List (String × IceSync.Tbl),
      ((acc.map Prod.fst) ++ ts.map IceSync.fmtId).Nodup →
      ts.foldl (fun d t => dset d (IceSync.fmtId t) t) acc =
        acc ++ ts.map fun t => (IceSync.fmtId t, t) := by
  induction ts with
  | nil => intro acc _; simp
  | cons t rest ih =>
    intro acc hnd
    have hni : IceSync.fmtId t ∉ acc.map Prod.fst := by
      intro hmem
      have hdis := (List.nodup_append.1 hnd).2.2
      have hno : IceSync.fmtId t ∉ (t :: rest).map IceSync.fmtId := hdis hmem
      exact hno (by simp)
    simp only [List.foldl_cons]
    rw [dset_append_of_not_mem acc (IceSync.fmtId t) t hni]
    rw [ih (acc ++ [(IceSync.fmtId t, t)]) (by
      simp only [List.map_append, List.map_cons, List.map_nil] at hnd ⊢
      simp only [List.append_assoc, List.singleton_append]
      exact hnd)]
    simp

theorem tableIds_eq (tables : List IceSync.Tbl)
    (h : (tables.map IceSync.fmtId).Nodup) :
    IceSync.tableIds tables = tables.map fun t => (IceSync.fmtId t, t) := by
  unfold IceSync.tableIds
  have := tableIds_eq_aux tables [] (by simpa using h)
  simpa using this

theorem dget_nf_mem (ids : List String) (f : String → Int) (k : String)
    (h : k ∈ ids) : dget (IceSync.nf ids f) k = some (f k) := by
  induction ids with
  | nil => simp at h
  | cons i rest ih =>
    rcases List.mem_cons.1 h with h | h
    · subst h
      simp [IceSync.nf, dget]
    · by_cases hik : i = k
      · subst hik
        simp [IceSync.nf, dget]
      · simpa [IceSync.nf, dget, hik] using ih h

theorem dget_nf_not_mem (ids : List String) (f : String → Int) (k : String)
    (h : k ∉ ids) : dget (IceSync.nf ids f) k = none := by
  induction ids with
  | nil => simp [IceSync.nf, dget]
  | cons i rest ih =>
    simp only [List.mem_cons] at h
    push_neg at h
    have h1 : ¬(i = k) := fun he => h.1 he.symm
    simp only [IceSync.nf, List.map_cons, dget, if_neg h1]
    show dget (IceSync.nf rest f) k = none
    exact ih h.2

theorem hasKey_nf (ids : List String) (f : String → Int) (k : String) :
    IceSync.hasKey (IceSync.nf ids f) k = decide (k ∈ ids) := by
  by_cases h : k ∈ ids
  · simp [IceSync.hasKey, dget_nf_mem ids f k h, h]
  · simp [IceSync.hasKey, dget_nf_not_mem ids f k h, h]

theorem degIncr_nf (ids : List String) (f : String → Int) (k : String) :
    IceSync.degIncr k (IceSync.nf ids f) =
      IceSync.nf ids (fun id => if id = k then f id + 1 else f id) := by
  simp only [IceSync.nf, IceSync.degIncr, List.map_map]
  apply List.map_congr_left
  intro id _
  by_cases h : id = k <;> simp [h]

theorem degDecr_nf (ids : List String) (f : String → Int) (k : String) :
    IceSync.degDecr k (IceSync.nf ids f) =
      IceSync.nf ids (fun id => if id = k then f id - 1 else f id) := by
  simp only [IceSync.nf, IceSync.degDecr, List.map_map]
  apply List.map_congr_left
  intro id _
  by_cases h : id = k <;> simp [h]

theorem nf_congr (ids : List String) (f g : String → Int)
    (h : ∀ id ∈ ids, f id = g id) : IceSync.nf ids f = IceSync.nf ids g := by
  unfold IceSync.nf
  apply List.map_congr_left
  intro id hid
  rw [h id hid]

theorem length_filter_split {α : Type} (l : List α) (P Q : α → Bool) :
    (l.filter fun x => P x && Q x).length + (l.filter fun x => P x && !Q x).length
      = (l.filter P).length := by
  induction l with
  | nil => simp
  | cons a rest ih =>
    by_cases hP : P a = true
    · by_cases hQ : Q a = true <;> simp [List.filter_cons, hP, hQ] <;> omega
    · simp only [Bool.not_eq_true] at hP
      simp [List.filter_cons, hP]
      omega

theorem filter_mem_perm {α : Type} [DecidableEq α] (l s : List α) (P : α → Bool)
    (hl : l.Nodup) (hs : s.Nodup) (hsub : ∀ x ∈ s, x ∈ l ∧ P x = true) :
    (l.filter fun x => P x && decide (x ∈ s)).length = s.length := by
  apply List.Perm.length_eq
  rw [List.perm_ext_iff_of_nodup (List.Nodup.filter _ hl) hs]
  intro a
  simp only [List.mem_filter, Bool.and_eq_true, decide_eq_true_eq]
  constructor
  · rintro ⟨_, _, ha⟩
    exact ha
  · intro ha
    exact ⟨(hsub a ha).1, (hsub a ha).2, ha⟩

theorem length_filter_sub {α : Type} [DecidableEq α] (l s : List α) (P : α → Bool)
    (hl : l.Nodup) (hs : s.Nodup) (hsub : ∀ x ∈ s, x ∈ l ∧ P x = true) :
    (l.filter fun x => P x && decide (x ∉ s)).length + s.length
      = (l.filter P).length := by
  have h1 := length_filter_split l P (fun x => decide (x ∈ s))
  have h2 := filter_mem_perm l s P hl hs hsub
  have h3 : (l.filter fun x => P x && !(decide (x ∈ s)))
      = (l.filter fun x => P x && decide (x ∉ s)) := by
    apply List.filter_congr
    intro x _
    simp [decide_not]
  rw [h3] at h1
  omega

theorem foldl_incr_nf (ids : List String) (t : String) (ht : t ∈ ids) :
    ∀ (deps : List String) (f : String → Int),
      deps.foldl
        (fun d2 dep => if IceSync.hasKey d2 dep then IceSync.degIncr t d2 else d2)
        (IceSync.nf ids f)
      = IceSync.nf ids (fun id =>
          if id = t then f id + (deps.filter fun d => decide (d ∈ ids)).length
          else f id) := by
  intro deps
  induction deps with
  | nil =>
    intro f
    apply nf_congr
    intro id _
    by_cases h : id = t <;> simp [h]
  | cons dep rest ih =>
    intro f
    simp only [List.foldl_cons, hasKey_nf]
    by_cases hd : dep ∈ ids
    · rw [if_pos (by simp [hd]), degIncr_nf, ih]
      apply nf_congr
      intro id _
      by_cases hidt : id = t
      · subst hidt
        simp [List.filter_cons, hd]
        omega
      · simp [hidt]
    · rw [if_neg (by simp [hd]), ih]
      apply nf_congr
      intro id _
      by_cases hidt : id = t
      · subst hidt
        simp [List.filter_cons, hd]
      · simp [hidt]

theorem initDeg_foldl_nf (ids : List String) :
    ∀ (g : List (String × List String)) (f : String → Int), (g.map Prod.fst).Nodup →
      g.foldl
        (fun d p =>
          if IceSync.hasKey d p.1 then
            p.2.foldl
              (fun d2 dep => if IceSync.hasKey d2 dep then IceSync.degIncr p.1 d2 else d2) d
          else d)
        (IceSync.nf ids f)
      = IceSync.nf ids (fun id =>
          f id + (((dget g id).getD []).filter fun d => decide (d ∈ ids)).length) := by
  intro g
  induction g with
  | nil =>
    intro f _
    apply nf_congr
    intro id _
    simp [dget]
  | cons p rest ih =>
    intro f hnd
    obtain ⟨t, deps⟩ := p
    simp only [List.map_cons, List.nodup_cons] at hnd
    simp only [List.foldl_cons, hasKey_nf]
    by_cases ht : t ∈ ids
    · rw [if_pos (by simp [ht]), foldl_incr_nf ids t ht deps f, ih _ hnd.2]
      apply nf_congr
      intro id _
      by_cases hidt : id = t
      · subst hidt
        have hrest : dget rest id = none := (dget_eq_none_iff rest id).2 hnd.1
        simp [dget, hrest]
      · have hcons : dget ((t, deps) :: rest) id = dget rest id := by
          have hti : ¬(t = id) := fun h => hidt h.symm
          simp [dget, hti]
        simp [hcons, hidt]
    · rw [if_neg (by simp [ht]), ih _ hnd.2]
      apply nf_congr
      intro id hid
      have hidt : ¬(t = id) := fun h => ht (h ▸ hid)
      simp [dget, hidt]

theorem initDeg_nf (ids : List String) (graph : List (String × List String))
    (hg : (graph.map Prod.fst).Nodup) :
    IceSync.initDeg ids graph = IceSync.nf ids (fun id =>
      ((((dget graph id).getD []).filter fun d => decide (d ∈ ids)).length : Int)) := by
  unfold IceSync.initDeg
  have h0 : (ids.map fun i => (i, (0 : Int))) = IceSync.nf ids (fun _ => 0) := rfl
  rw [h0, initDeg_foldl_nf ids graph (fun _ => 0) hg]
  apply nf_congr
  intro id _
  omega

theorem q0_nf (ids : List String) (f : String → Int) :
    ((IceSync.nf ids f).filter fun p => decide (p.2 = 0)).map Prod.fst
      = ids.filter fun id => decide (f id = 0) := by
  unfold IceSync.nf
  rw [List.filter_map]
  rw [List.map_map]
  have : (Prod.fst ∘ fun id => (id, f id)) = id := rfl
  rw [this, List.map_id]
  rfl

theorem newQ_congr (ids : List String) (g : List (String × List String)) (tid : String)
    (f f2 : String → Int) (h : ∀ p ∈ g, f p.1 = f2 p.1) :
    IceSync.newQ ids g tid f = IceSync.newQ ids g tid f2 := by
  unfold IceSync.newQ
  congr 1
  apply List.filter_congr
  intro p hp
  rw [h p hp]

theorem stepDecr_nf (ids : List String) (tid : String) :
    ∀ (g : List (String × List String)) (f : String → Int) (q : List String),
      (g.map Prod.fst).Nodup →
      IceSync.stepDecr g tid (IceSync.nf ids f, q)
        = (IceSync.nf ids (IceSync.decOne ids g tid f),
           q ++ IceSync.newQ ids g tid f) := by
  intro g
  induction g with
  | nil =>
    intro f q _
    simp only [IceSync.stepDecr, List.foldl_nil, IceSync.newQ, List.filter_nil,
      List.map_nil, List.append_nil]
    rw [show IceSync.nf ids (IceSync.decOne ids [] tid f) = IceSync.nf ids f from
      nf_congr _ _ _ (by intro id _; simp [IceSync.decOne, dget])]
  | cons p rest ih =>
    intro f q hnd
    obtain ⟨t, deps⟩ := p
    simp only [List.map_cons, List.nodup_cons] at hnd
    have hrestkey : ∀ p2 ∈ rest, p2.1 ≠ t :=
      fun p2 hp2 h => hnd.1 (h ▸ List.mem_map_of_mem Prod.fst hp2)
    have hrest_none : dget rest t = none := (dget_eq_none_iff rest t).2 hnd.1
    have hconsget : ∀ id, id ≠ t → dget ((t, deps) :: rest) id = dget rest id := by
      intro id hid
      have hti : ¬(t = id) := fun h => hid h.symm
      simp [dget, hti]
    have hcons : IceSync.stepDecr ((t, deps) :: rest) tid (IceSync.nf ids f, q)
        = IceSync.stepDecr rest tid
          (if deps.contains tid && IceSync.hasKey (IceSync.nf ids f) t then
            (if dget (IceSync.degDecr t (IceSync.nf ids f)) t = some 0 then
              (IceSync.degDecr t (IceSync.nf ids f), q ++ [t])
             else (IceSync.degDecr t (IceSync.nf ids f), q))
           else (IceSync.nf ids f, q)) := rfl
    by_cases hct : deps.contains tid = true
    · have hmem : tid ∈ deps := (strlist_contains_iff deps tid).1 hct
      by_cases ht : t ∈ ids
      · -- the entry fires: t's degree is decremented
        have hdd : IceSync.degDecr t (IceSync.nf ids f)
            = IceSync.nf ids (fun id => if id = t then f id - 1 else f id) :=
          degDecr_nf ids f t
        have hgett : dget (IceSync.degDecr t (IceSync.nf ids f)) t
            = some (f t - 1) := by
          rw [hdd, dget_nf_mem ids _ t ht]
          simp
        rw [hcons, if_pos (by simp [hct, hmem, hasKey_nf, ht]), hgett]
        by_cases hf1 : f t = 1
        · rw [if_pos (by rw [hf1]; rfl), hdd,
            ih (fun id => if id = t then f id - 1 else f id) (q ++ [t]) hnd.2]
          have hq : IceSync.newQ ids ((t, deps) :: rest) tid f
              = t :: IceSync.newQ ids rest tid f := by
            unfold IceSync.newQ
            rw [List.filter_cons]
            simp [hct, hmem, ht, hf1]
          have hqr : IceSync.newQ ids rest tid
                (fun id => if id = t then f id - 1 else f id)
              = IceSync.newQ ids rest tid f := by
            apply newQ_congr
            intro p2 hp2
            simp [hrestkey p2 hp2]
          rw [hq, hqr]
          refine Prod.ext ?_ ?_
          · apply nf_congr
            intro id hid
            by_cases hidt : id = t
            · subst hidt
              simp [IceSync.decOne, hrest_none, dget, hct, hmem, ht]
            · simp only [IceSync.decOne]
              rw [hconsget id hidt]
              simp [hidt]
          · simp
        · rw [if_neg (by simp; omega), hdd,
            ih (fun id => if id = t then f id - 1 else f id) q hnd.2]
          have hq : IceSync.newQ ids ((t, deps) :: rest) tid f
              = IceSync.newQ ids rest tid f := by
            unfold IceSync.newQ
            rw [List.filter_cons]
            simp [hf1]
          have hqr : IceSync.newQ ids rest tid
                (fun id => if id = t then f id - 1 else f id)
              = IceSync.newQ ids rest tid f := by
            apply newQ_congr
            intro p2 hp2
            simp [hrestkey p2 hp2]
          rw [hq, hqr]
          refine Prod.ext ?_ ?_
          · apply nf_congr
            intro id hid
            by_cases hidt : id = t
            · subst hidt
              simp [IceSync.decOne, hrest_none, dget, hct, hmem, ht]
            · simp only [IceSync.decOne]
              rw [hconsget id hidt]
              simp [hidt]
          · rfl
      · -- t is not a tracked id: the entry is skipped
        rw [hcons, if_neg (by simp [hasKey_nf, ht]), ih f q hnd.2]
        have hq : IceSync.newQ ids ((t, deps) :: rest) tid f
            = IceSync.newQ ids rest tid f := by
          unfold IceSync.newQ
          rw [List.filter_cons]
          simp [ht]
        rw [hq]
        refine Prod.ext ?_ ?_
        · apply nf_congr
          intro id hid
          have hidt : id ≠ t := fun h => ht (h ▸ hid)
          simp only [IceSync.decOne]
          rw [hconsget id hidt]
        · rfl
    · -- tid is not among this entry's dependencies: skipped
      have hnmem : tid ∉ deps := fun h => hct ((strlist_contains_iff deps tid).2 h)
      rw [hcons, if_neg (by simp [hnmem]), ih f q hnd.2]
      have hq : IceSync.newQ ids ((t, deps) :: rest) tid f
          = IceSync.newQ ids rest tid f := by
        unfold IceSync.newQ
        rw [List.filter_cons]
        simp [hct, hnmem]
      rw [hq]
      refine Prod.ext ?_ ?_
      · apply nf_congr
        intro id hid
        by_cases hidt : id = t
        · subst hidt
          simp [IceSync.decOne, hrest_none, dget, hnmem]
        · simp only [IceSync.decOne]
          rw [hconsget id hidt]
      · rfl

theorem tids_dget_spec :
    ∀ (tables : List IceSync.Tbl) (tid : String), tid ∈ tables.map IceSync.fmtId →
      ∃ t0, dget (tables.map fun t => (IceSync.fmtId t, t)) tid = some t0 ∧
        t0 ∈ tables ∧ IceSync.fmtId t0 = tid := by
  intro tables
  induction tables with
  | nil => intro tid h; simp at h
  | cons t rest ih =>
    intro tid h
    by_cases hf : IceSync.fmtId t = tid
    · exact ⟨t, by simp [dget, hf], List.mem_cons_self _ _, hf⟩
    · have h2 : tid ∈ (t :: rest).map IceSync.fmtId := h
      simp only [List.map_cons, List.mem_cons] at h2
      rcases h2 with h1 | h1
      · exact absurd h1.symm hf
      · obtain ⟨t0, hg, hm, hfmt⟩ := ih tid h1
        exact ⟨t0, by simp [dget, hf, hg], List.mem_cons_of_mem _ hm, hfmt⟩

theorem dget_of_mem_nodup {α : Type} (g : List (String × α)) (p : String × α)
    (hg : (g.map Prod.fst).Nodup) (hp : p ∈ g) : dget g p.1 = some p.2 := by
  induction g with
  | nil => simp at hp
  | cons x rest ih =>
    simp only [List.map_cons, List.nodup_cons] at hg
    rcases List.mem_cons.1 hp with h | h
    · subst h
      simp [dget]
    · have hx : x.1 ≠ p.1 := fun he => hg.1 (he ▸ List.mem_map_of_mem Prod.fst h)
      simp only [dget, if_neg hx]
      exact ih hg.2 h

theorem listed_sub (ids : List String) (graph : List (String × List String))
    (id : String) : ∀ d ∈ IceSync.listedDeps ids graph id, d ∈ ids := by
  intro d hd
  have := List.of_mem_filter hd
  simpa using this

theorem listed_sub_deps (ids : List String) (graph : List (String × List String))
    (id : String) : ∀ d ∈ IceSync.listedDeps ids graph id, d ∈ (dget graph id).getD [] :=
  fun _ hd => List.mem_of_mem_filter hd

theorem listed_nodup (ids : List String) (graph : List (String × List String))
    (hD : ∀ p ∈ graph, p.2.Nodup) (id : String) :
    (IceSync.listedDeps ids graph id).Nodup := by
  unfold IceSync.listedDeps
  cases hg : dget graph id with
  | none => simp
  | some deps =>
    have := hD (id, deps) (dget_mem graph id deps hg)
    exact List.Nodup.filter _ this

theorem mem_listed_iff (ids : List String) (graph : List (String × List String))
    (id d : String) :
    d ∈ IceSync.listedDeps ids graph id ↔ d ∈ (dget graph id).getD [] ∧ d ∈ ids := by
  unfold IceSync.listedDeps
  simp [List.mem_filter]

theorem newQ_mem_spec (ids : List String) (graph : List (String × List String))
    (tid : String) (f : String → Int) (hG : (graph.map Prod.fst).Nodup) (x : String) :
    x ∈ IceSync.newQ ids graph tid f →
      x ∈ ids ∧ f x = 1 ∧ tid ∈ (dget graph x).getD [] := by
  intro hx
  unfold IceSync.newQ at hx
  obtain ⟨p, hp, hpx⟩ := List.mem_map.1 hx
  have hf := List.of_mem_filter hp
  have hpg := List.mem_of_mem_filter hp
  simp only [Bool.and_eq_true, decide_eq_true_eq] at hf
  obtain ⟨⟨hct, hin⟩, hf1⟩ := hf
  subst hpx
  refine ⟨hin, hf1, ?_⟩
  rw [dget_of_mem_nodup graph p hG hpg]
  exact (strlist_contains_iff p.2 tid).1 hct

theorem newQ_mem_intro (ids : List String) (graph : List (String × List String))
    (tid : String) (f : String → Int) (x : String) (deps : List String)
    (hx : x ∈ ids) (hf : f x = 1) (hg : dget graph x = some deps)
    (htid : tid ∈ deps) : x ∈ IceSync.newQ ids graph tid f := by
  unfold IceSync.newQ
  refine List.mem_map.2 ⟨(x, deps), ?_, rfl⟩
  refine List.mem_filter.2 ⟨dget_mem graph x deps hg, ?_⟩
  simp [hx, hf, htid, (strlist_contains_iff deps tid).2 htid]

theorem newQ_nodup (ids : List String) (graph : List (String × List String))
    (tid : String) (f : String → Int) (hG : (graph.map Prod.fst).Nodup) :
    (IceSync.newQ ids graph tid f).Nodup := by
  unfold IceSync.newQ
  exact List.Nodup.sublist (List.Sublist.map Prod.fst (List.filter_sublist _)) hG

theorem kahn_step
    (tables : List IceSync.Tbl) (graph : List (String × List String))
    (hT : (tables.map IceSync.fmtId).Nodup)
    (hG : (graph.map Prod.fst).Nodup)
    (hD : ∀ p ∈ graph, p.2.Nodup)
    (f : String → Int) (tid : String) (rest : List String) (res : List IceSync.Tbl)
    (hinv : IceSync.KahnInv tables graph f (tid :: rest) res)
    (t0 : IceSync.Tbl) (ht0 : t0 ∈ tables) (hfmt : IceSync.fmtId t0 = tid) :
    IceSync.KahnInv tables graph (IceSync.decOne (tables.map IceSync.fmtId) graph tid f)
      (rest ++ IceSync.newQ (tables.map IceSync.fmtId) graph tid f) (res ++ [t0]) ∧
    IceSync.kahnMeasure (tables.map IceSync.fmtId)
        (rest ++ IceSync.newQ (tables.map IceSync.fmtId) graph tid f)
        ((res ++ [t0]).map IceSync.fmtId) + 1
      = IceSync.kahnMeasure (tables.map IceSync.fmtId) (tid :: rest)
          (res.map IceSync.fmtId) := by
  set ids := tables.map IceSync.fmtId with hids_def
  set nq := IceSync.newQ ids graph tid f with hnq_def
  set rids := res.map IceSync.fmtId with hrids_def
  have hrids_map : (res ++ [t0]).map IceSync.fmtId = rids ++ [tid] := by
    simp [hrids_def, hfmt]
  have htid_ids : tid ∈ ids := hinv.hq_sub tid (List.mem_cons_self _ _)
  have htid_nrids : tid ∉ rids := hinv.hdisj tid (List.mem_cons_self _ _)
  have hrest_nd : rest.Nodup := (List.nodup_cons.1 hinv.hq_nd).2
  have htid_nrest : tid ∉ rest := (List.nodup_cons.1 hinv.hq_nd).1
  have hres_done : ∀ x ∈ rids, ∀ d ∈ IceSync.listedDeps ids graph x, d ∈ rids := by
    intro x hx d hd
    obtain ⟨i, hi, hget⟩ := List.mem_iff_getElem.1 hx
    have hg2 : rids[i]? = some x := by rw [List.getElem?_eq_getElem hi, hget]
    exact List.mem_of_mem_take (hinv.horder i x hg2 d hd)
  have hzero_in : ∀ x, x ∈ ids → (x ∈ tid :: rest ∨ x ∈ rids) → f x = 0 := by
    intro x hxid hx
    have hsub : ∀ d ∈ IceSync.listedDeps ids graph x, d ∈ rids := by
      rcases hx with hx | hx
      · exact hinv.hq_done x hx
      · exact hres_done x hx
    rw [hinv.hdeg x hxid]
    have hnil : ((IceSync.listedDeps ids graph x).filter
        fun d => decide (d ∉ rids)) = [] := by
      rw [List.filter_eq_nil_iff]
      intro a ha
      simp [hsub a ha]
    rw [hnil]
    rfl
  have hnq_spec : ∀ x ∈ nq, x ∈ ids ∧ f x = 1 ∧ tid ∈ (dget graph x).getD [] :=
    fun x hx => newQ_mem_spec ids graph tid f hG x hx
  have hnq_fresh : ∀ x ∈ nq, x ∉ (tid :: rest) ∧ x ∉ rids := by
    intro x hx
    obtain ⟨hxid, hf1, _⟩ := hnq_spec x hx
    constructor
    · intro hmem
      have := hzero_in x hxid (Or.inl hmem)
      omega
    · intro hmem
      have := hzero_in x hxid (Or.inr hmem)
      omega
  have hnq_nd : nq.Nodup := newQ_nodup ids graph tid f hG
  have hdeg' : ∀ id ∈ ids,
      IceSync.decOne ids graph tid f id
        = ((IceSync.listedDeps ids graph id).filter
            fun d => decide (d ∉ rids ++ [tid])).length := by
    intro id hid
    have hnd_listed := listed_nodup ids graph hD id
    by_cases hc : tid ∈ (dget graph id).getD []
    · have hdec : IceSync.decOne ids graph tid f id = f id - 1 := by
        simp [IceSync.decOne, hid, hc, (strlist_contains_iff _ tid).2 hc]
      have htid_listed : tid ∈ IceSync.listedDeps ids graph id :=
        (mem_listed_iff ids graph id tid).2 ⟨hc, htid_ids⟩
      have hcount := length_filter_sub (IceSync.listedDeps ids graph id) [tid]
          (fun d => decide (d ∉ rids)) hnd_listed (List.nodup_singleton tid)
          (by
            intro x hx
            simp only [List.mem_singleton] at hx
            subst hx
            exact ⟨htid_listed, by simp [htid_nrids]⟩)
      have hpred : ((IceSync.listedDeps ids graph id).filter
            fun d => decide (d ∉ rids ++ [tid]))
          = ((IceSync.listedDeps ids graph id).filter
            fun d => decide (d ∉ rids) && decide (d ∉ [tid])) := by
        apply List.filter_congr
        intro d _
        simp [List.mem_append, not_or]
      have hbase := hinv.hdeg id hid
      rw [← hids_def, ← hrids_def] at hbase
      have hcount2 : (((IceSync.listedDeps ids graph id).filter
            fun d => decide (d ∉ rids) && decide (d ∉ [tid])).length) + [tid].length
          = ((IceSync.listedDeps ids graph id).filter
            fun d => decide (d ∉ rids)).length := hcount
      rw [hdec, hpred]
      simp only [List.length_singleton] at hcount2
      omega
    · have hct : ((dget graph id).getD []).contains tid = false := by
        rw [Bool.eq_false_iff]
        intro hct
        exact hc ((strlist_contains_iff _ tid).1 hct)
      have hdec : IceSync.decOne ids graph tid f id = f id := by
        simp [IceSync.decOne, hc, hct]
      have hpred : ((IceSync.listedDeps ids graph id).filter
            fun d => decide (d ∉ rids ++ [tid]))
          = ((IceSync.listedDeps ids graph id).filter
            fun d => decide (d ∉ rids)) := by
        apply List.filter_congr
        intro d hd
        have hdt : d ≠ tid := by
          intro h
          subst h
          exact hc ((mem_listed_iff ids graph id d).1 hd).1
        simp [List.mem_append, not_or, hdt]
      rw [hdec, hpred]
      have hbase := hinv.hdeg id hid
      rw [← hids_def, ← hrids_def] at hbase
      exact hbase
  have hmeas : IceSync.kahnMeasure ids (rest ++ nq) (rids ++ [tid]) + 1
      = IceSync.kahnMeasure ids (tid :: rest) rids := by
    unfold IceSync.kahnMeasure
    have hfc : (ids.filter fun id =>
          decide (id ∉ rest ++ nq) && decide (id ∉ rids ++ [tid]))
        = (ids.filter fun id =>
          (decide (id ∉ tid :: rest) && decide (id ∉ rids)) && decide (id ∉ nq)) := by
      apply List.filter_congr
      intro x _
      by_cases h1 : x = tid <;> by_cases h2 : x ∈ rest <;> by_cases h3 : x ∈ nq <;>
        by_cases h4 : x ∈ rids <;>
        simp [List.mem_append, List.mem_cons, h1, h2, h3, h4]
    have hsub := length_filter_sub ids nq
        (fun id => decide (id ∉ tid :: rest) && decide (id ∉ rids)) hT hnq_nd
        (by
          intro x hx
          obtain ⟨hxid, _, _⟩ := hnq_spec x hx
          obtain ⟨hnc, hnr⟩ := hnq_fresh x hx
          exact ⟨hxid, by simp [hnc, hnr]⟩)
    have hsub2 : ((ids.filter fun id =>
          (decide (id ∉ tid :: rest) && decide (id ∉ rids)) && decide (id ∉ nq)).length)
          + nq.length
        = (ids.filter fun id =>
          decide (id ∉ tid :: rest) && decide (id ∉ rids)).length := hsub
    rw [hfc]
    simp only [List.length_append, List.length_cons]
    omega
  refine ⟨⟨?_, ?_, ?_, ?_, ?_, ?_, ?_, ?_, ?_⟩, by rw [hrids_map]; exact hmeas⟩
  · -- hq_sub
    intro x hx
    rcases List.mem_append.1 hx with hx | hx
    · exact hinv.hq_sub x (List.mem_cons_of_mem _ hx)
    · exact (hnq_spec x hx).1
  · -- hq_nd
    refine List.nodup_append.2 ⟨hrest_nd, hnq_nd, ?_⟩
    intro a ha hb
    have h0 : f a = 0 :=
      hzero_in a (hinv.hq_sub a (List.mem_cons_of_mem _ ha)) (Or.inl (List.mem_cons_of_mem _ ha))
    have h1 : f a = 1 := (hnq_spec a hb).2.1
    omega
  · -- hres_sub
    intro t ht
    rcases List.mem_append.1 ht with ht | ht
    · exact hinv.hres_sub t ht
    · simp only [List.mem_singleton] at ht
      exact ht ▸ ht0
  · -- hrid_nd
    rw [hrids_map]
    refine List.nodup_append.2 ⟨hinv.hrid_nd, List.nodup_singleton tid, ?_⟩
    intro a ha hb
    simp only [List.mem_singleton] at hb
    exact htid_nrids (hb ▸ ha)
  · -- hdisj
    rw [hrids_map]
    intro x hx
    rcases List.mem_append.1 hx with hx | hx
    · have hnr := hinv.hdisj x (List.mem_cons_of_mem _ hx)
      have hnt : x ≠ tid := fun h => htid_nrest (h ▸ hx)
      simp [List.mem_append, hnr, hnt]
    · obtain ⟨hnc, hnr⟩ := hnq_fresh x hx
      have hnt : x ≠ tid := fun h => hnc (h ▸ List.mem_cons_self _ _)
      simp [List.mem_append, hnr, hnt]
  · -- hdeg
    rw [hrids_map]
    exact hdeg'
  · -- hq_done
    rw [hrids_map]
    intro x hx d hd
    rcases List.mem_append.1 hx with hx | hx
    · exact List.mem_append_left _ (hinv.hq_done x (List.mem_cons_of_mem _ hx) d hd)
    · obtain ⟨hxid, hf1, hcdep⟩ := hnq_spec x hx
      have hx0 : IceSync.decOne ids graph tid f x = 0 := by
        simp [IceSync.decOne, hxid, hcdep, (strlist_contains_iff _ tid).2 hcdep, hf1]
      rw [hdeg' x hxid] at hx0
      have hnil : ((IceSync.listedDeps ids graph x).filter
          fun d => decide (d ∉ rids ++ [tid])) = [] := by
        rw [Int.natCast_eq_zero] at hx0
        exact List.length_eq_zero.1 hx0
      by_contra hdn
      have := (List.filter_eq_nil_iff.1 hnil) d hd
      simp [hdn] at this
  · -- horder
    rw [hrids_map]
    intro i x hget d hd
    rcases Nat.lt_trichotomy i rids.length with hlt | heq | hgt
    · rw [List.getElem?_append_left hlt] at hget
      have hmem := hinv.horder i x hget d hd
      rw [List.take_append_eq_append_take, show i - rids.length = 0 from by omega,
        List.take_zero, List.append_nil]
      exact hmem
    · rw [heq] at hget
      rw [List.getElem?_concat_length] at hget
      have hx : x = tid := by injection hget with h; exact h.symm
      subst hx
      have hdr : d ∈ rids := hinv.hq_done x (List.mem_cons_self _ _) d hd
      rw [heq, List.take_append_eq_append_take, Nat.sub_self, List.take_zero,
        List.append_nil, List.take_length]
      exact hdr
    · rw [List.getElem?_eq_none (by simp; omega)] at hget
      exact absurd hget (by simp)
  · -- hzero
    rw [hrids_map]
    intro id hid hq' hr' hf0
    by_cases hc : tid ∈ (dget graph id).getD []
    · have hdec : IceSync.decOne ids graph tid f id = f id - 1 := by
        simp [IceSync.decOne, hid, hc, (strlist_contains_iff _ tid).2 hc]
      have hf1 : f id = 1 := by
        rw [hdec] at hf0
        omega
      cases hg : dget graph id with
      | none =>
        rw [hg] at hc
        simp at hc
      | some deps =>
        have hin : id ∈ nq :=
          newQ_mem_intro ids graph tid f id deps hid hf1 hg
            (by rw [hg] at hc; simpa using hc)
        exact hq' (List.mem_append_right _ hin)
    · have hct : ((dget graph id).getD []).contains tid = false := by
        rw [Bool.eq_false_iff]
        intro hct
        exact hc ((strlist_contains_iff _ tid).1 hct)
      have hdec : IceSync.decOne ids graph tid f id = f id := by
        simp [IceSync.decOne, hct]
        exact fun _ => hc
      rw [hdec] at hf0
      have hnt : id ≠ tid := fun h =>
        hr' (h ▸ List.mem_append_right _ (List.mem_singleton.2 rfl))
      have hnq2 : id ∉ tid :: rest := by
        intro h
        rcases List.mem_cons.1 h with h | h
        · exact hnt h
        · exact hq' (List.mem_append_left _ h)
      have hnr : id ∉ rids := fun h => hr' (List.mem_append_left _ h)
      exact hinv.hzero id hid hnq2 hnr hf0

theorem exists_rank_min (rank : String → Nat) :
    ∀ (l : List String), l ≠ [] → ∃ x ∈ l, ∀ y ∈ l, rank x ≤ rank y := by
  intro l
  induction l with
  | nil => intro h; exact absurd rfl h
  | cons x t ih =>
    intro _
    cases t with
    | nil =>
      refine ⟨x, List.mem_singleton.2 rfl, ?_⟩
      intro y hy
      rw [List.mem_singleton.1 hy]
    | cons h2 t2 =>
      obtain ⟨m, hm, hmin⟩ := ih (by simp)
      by_cases hc : rank x ≤ rank m
      · refine ⟨x, List.mem_cons_self _ _, ?_⟩
        intro y hy
        rcases List.mem_cons.1 hy with h | h
        · rw [h]
        · exact le_trans hc (hmin y h)
      · refine ⟨m, List.mem_cons_of_mem _ hm, ?_⟩
        intro y hy
        rcases List.mem_cons.1 hy with h | h
        · rw [h]; exact le_of_not_le hc
        · exact hmin y h

theorem kahnLoop_spec
    (tables : List IceSync.Tbl) (graph : List (String × List String))
    (hT : (tables.map IceSync.fmtId).Nodup)
    (hG : (graph.map Prod.fst).Nodup)
    (hD : ∀ p ∈ graph, p.2.Nodup) :
    ∀ (fuel : Nat) (f : String → Int) (q : List String) (res : List IceSync.Tbl),
      IceSync.KahnInv tables graph f q res →
      IceSync.kahnMeasure (tables.map IceSync.fmtId) q (res.map IceSync.fmtId) ≤ fuel →
      ∃ f2, IceSync.KahnInv tables graph f2 []
        (IceSync.kahnLoop (tables.map fun t => (IceSync.fmtId t, t)) graph fuel
          (IceSync.nf (tables.map IceSync.fmtId) f) q res) := by
  intro fuel
  induction fuel with
  | zero =>
    intro f q res hinv hm
    have hq : q = [] := by
      unfold IceSync.kahnMeasure at hm
      have h0 := Nat.le_zero.1 hm
      have hlen : q.length = 0 := by omega
      exact List.length_eq_zero.1 hlen
    subst hq
    exact ⟨f, hinv⟩
  | succ fuel ih =>
    intro f q res hinv hm
    cases q with
    | nil => exact ⟨f, hinv⟩
    | cons tid rest =>
      have htid : tid ∈ tables.map IceSync.fmtId :=
        hinv.hq_sub tid (List.mem_cons_self _ _)
      obtain ⟨t0, hget, ht0, hfmt⟩ := tids_dget_spec tables tid htid
      have hstep := kahn_step tables graph hT hG hD f tid rest res hinv t0 ht0 hfmt
      have hres2 : (dget (tables.map fun t => (IceSync.fmtId t, t)) tid).getD ("", "")
          = t0 := by
        rw [hget]
        rfl
      have hunf : IceSync.kahnLoop (tables.map fun t => (IceSync.fmtId t, t)) graph
          (fuel + 1) (IceSync.nf (tables.map IceSync.fmtId) f) (tid :: rest) res
        = IceSync.kahnLoop (tables.map fun t => (IceSync.fmtId t, t)) graph fuel
            (IceSync.stepDecr graph tid
              (IceSync.nf (tables.map IceSync.fmtId) f, rest)).1
            (IceSync.stepDecr graph tid
              (IceSync.nf (tables.map IceSync.fmtId) f, rest)).2
            (res ++ [(dget (tables.map fun t => (IceSync.fmtId t, t)) tid).getD
              ("", "")]) := rfl
      rw [hunf, hres2,
        stepDecr_nf (tables.map IceSync.fmtId) tid graph f rest hG]
      refine ih (IceSync.decOne (tables.map IceSync.fmtId) graph tid f)
        (rest ++ IceSync.newQ (tables.map IceSync.fmtId) graph tid f) (res ++ [t0])
        hstep.1 ?_
      have h1 := hstep.2
      omega

theorem kahn_complete
    (tables : List IceSync.Tbl) (graph : List (String × List String))
    (f2 : String → Int) (res2 : List IceSync.Tbl)
    (hinv : IceSync.KahnInv tables graph f2 [] res2)
    (rank : String → Nat)
    (hrank : ∀ id ∈ tables.map IceSync.fmtId,
      ∀ d ∈ IceSync.listedDeps (tables.map IceSync.fmtId) graph id, rank d < rank id) :
    ∀ id ∈ tables.map IceSync.fmtId, id ∈ res2.map IceSync.fmtId := by
  by_contra hcon
  push_neg at hcon
  obtain ⟨id0, hid0, hnid0⟩ := hcon
  set ids := tables.map IceSync.fmtId with hids_def
  set rids := res2.map IceSync.fmtId with hrids_def
  set missing := ids.filter (fun id => decide (id ∉ rids)) with hmiss_def
  have hne : missing ≠ [] := by
    intro h
    have hmm : id0 ∈ missing := List.mem_filter.2 ⟨hid0, by simpa using hnid0⟩
    rw [h] at hmm
    simp at hmm
  obtain ⟨m, hm, hmin⟩ := exists_rank_min rank missing hne
  have hm_ids : m ∈ ids := List.mem_of_mem_filter hm
  have hm_nr : m ∉ rids := by
    have := List.of_mem_filter hm
    simpa using this
  have hz := hinv.hzero m hm_ids (List.not_mem_nil m) hm_nr
  have hd := hinv.hdeg m hm_ids
  have hlen : ((IceSync.listedDeps ids graph m).filter
      fun d => decide (d ∉ rids)).length ≠ 0 := by
    intro h0
    apply hz
    rw [hd, h0]
    rfl
  have hex : ∃ d ∈ IceSync.listedDeps ids graph m, d ∉ rids := by
    by_contra hno
    push_neg at hno
    apply hlen
    rw [List.length_eq_zero, List.filter_eq_nil_iff]
    intro d hd2
    simpa using hno d hd2
  obtain ⟨d, hd2, hdnr⟩ := hex
  have hd_ids : d ∈ ids := listed_sub ids graph m d hd2
  have hd_missing : d ∈ missing := List.mem_filter.2 ⟨hd_ids, by simpa using hdnr⟩
  have h1 := hmin d hd_missing
  have h2 := hrank m hm_ids d hd2
  omega

theorem foldl_dedup_noop :
    ∀ (tids : List (String × IceSync.Tbl)) (kres : List IceSync.Tbl),
      (∀ p ∈ tids, p.2 ∈ kres) →
      tids.foldl (fun r p => if p.2 ∈ r then r else r ++ [p.2]) kres = kres := by
  intro tids
  induction tids with
  | nil => intro kres _; rfl
  | cons p rest ih =>
    intro kres h
    have hp : p.2 ∈ kres := h p (List.mem_cons_self _ _)
    simp only [List.foldl_cons, if_pos hp]
    exact ih kres (fun q hq => h q (List.mem_cons_of_mem _ hq))

theorem run_syncs_halt (sync : String → String → IceSync.SyncResult) :
    ∀ (l : List IceSync.Tbl) (i : Nat) (t : IceSync.Tbl),
      l[i]? = some t → (sync t.1 t.2).success = false →
      (IceSync.run_syncs sync l).length ≤ i + 1 := by
  intro l
  induction l with
  | nil => intro i t hget _; simp at hget
  | cons hd tl ih =>
    intro i t hget hfail
    cases i with
    | zero =>
      simp only [List.getElem?_cons_zero] at hget
      have hht : hd = t := by injection hget
      subst hht
      simp [IceSync.run_syncs, hfail]
    | succ i =>
      simp only [List.getElem?_cons_succ] at hget
      by_cases hs : (sync hd.1 hd.2).success = true
      · have hrec := ih i t hget hfail
        simp only [IceSync.run_syncs, if_pos hs, List.length_cons]
        omega
      · simp only [IceSync.run_syncs, if_neg hs, List.length_singleton]
        omega

/-- C8 (amended): topological sync ordering holds under the amended
hypotheses: distinct table ids, duplicate-free graph keys and dependency
lists, and an acyclic dependency graph (witnessed by a rank function that
strictly decreases along listed dependencies).  If table `tB` lists table
`tA` among its dependencies, `_topological_sort` places `tA` strictly
before `tB`, and when `tA`'s sync fails `sync_in_order` halts before
reaching `tB` (at most `i + 1` results for `tA` at position `i`). -/
theorem topo_sync_order_amended
    (tables : List IceSync.Tbl) (graph : List (String × List String))
    (hT : (tables.map IceSync.fmtId).Nodup)
    (hG : (graph.map Prod.fst).Nodup)
    (hD : ∀ p ∈ graph, p.2.Nodup)
    (rank : String → Nat)
    (hrank : ∀ id ∈ tables.map IceSync.fmtId,
      ∀ d ∈ IceSync.listedDeps (tables.map IceSync.fmtId) graph id, rank d < rank id)
    (tA tB : IceSync.Tbl) (hA : tA ∈ tables) (hB : tB ∈ tables)
    (hdep : IceSync.fmtId tA ∈
      IceSync.listedDeps (tables.map IceSync.fmtId) graph (IceSync.fmtId tB)) :
    ∃ i j, i < j ∧
      (IceSync.topological_sort tables graph)[i]? = some tA ∧
      (IceSync.topological_sort tables graph)[j]? = some tB ∧
      ∀ sync : String → String → IceSync.SyncResult,
        (sync tA.1 tA.2).success = false →
        (IceSync.sync_in_order sync tables (some graph)).length ≤ i + 1 := by
  set ids := tables.map IceSync.fmtId with hids_def
  have htids : IceSync.tableIds tables = tables.map fun t => (IceSync.fmtId t, t) :=
    tableIds_eq tables hT
  have hids0 : (tables.map fun t => (IceSync.fmtId t, t)).map Prod.fst = ids := by
    rw [List.map_map]
    apply List.map_congr_left
    intro t _
    rfl
  have hdeg0 : IceSync.initDeg ids graph = IceSync.nf ids (IceSync.deg0fun ids graph) := by
    rw [initDeg_nf ids graph hG]
    rfl
  have hsort : IceSync.topological_sort tables graph =
      (tables.map fun t => (IceSync.fmtId t, t)).foldl
        (fun r p => if p.2 ∈ r then r else r ++ [p.2])
        (IceSync.kahnLoop (tables.map fun t => (IceSync.fmtId t, t)) graph
          ((ids.filter fun id => decide (IceSync.deg0fun ids graph id = 0)).length
            + ids.length)
          (IceSync.nf ids (IceSync.deg0fun ids graph))
          (ids.filter fun id => decide (IceSync.deg0fun ids graph id = 0)) []) := by
    simp only [IceSync.topological_sort]
    rw [htids, hids0, hdeg0, q0_nf]
  set q0 := ids.filter fun id => decide (IceSync.deg0fun ids graph id = 0) with hq0_def
  have hinv0 : IceSync.KahnInv tables graph (IceSync.deg0fun ids graph) q0 [] := by
    refine ⟨?_, ?_, ?_, ?_, ?_, ?_, ?_, ?_, ?_⟩
    · intro x hx
      exact List.mem_of_mem_filter hx
    · exact List.Nodup.filter _ hT
    · intro t ht
      simp at ht
    · simp
    · intro x _
      simp
    · intro id hid
      have hfe : ((IceSync.listedDeps ids graph id).filter
          fun d => decide (d ∉ ([] : List IceSync.Tbl).map IceSync.fmtId))
            = IceSync.listedDeps ids graph id := by
        simp
      rw [hfe]
      rfl
    · intro x hx d hd
      have hz := List.of_mem_filter hx
      simp only [decide_eq_true_eq] at hz
      have hlen0 : (IceSync.listedDeps ids graph x).length = 0 := by
        have hzz : ((IceSync.listedDeps ids graph x).length : Int) = 0 := hz
        exact_mod_cast hzz
      rw [List.length_eq_zero] at hlen0
      rw [hlen0] at hd
      simp at hd
    · intro i x hget
      simp at hget
    · intro id hid hq hr h0
      apply hq
      exact List.mem_filter.2 ⟨hid, by simpa using h0⟩
  have hmb : IceSync.kahnMeasure ids q0 (([] : List IceSync.Tbl).map IceSync.fmtId)
      ≤ q0.length + ids.length := by
    unfold IceSync.kahnMeasure
    have hfl := List.length_filter_le
      (fun id => decide (id ∉ q0) && decide (id ∉ ([] : List IceSync.Tbl).map IceSync.fmtId)) ids
    omega
  obtain ⟨f2, hinv2⟩ := kahnLoop_spec tables graph hT hG hD
    (q0.length + ids.length) (IceSync.deg0fun ids graph) q0 [] hinv0 hmb
  set kres := IceSync.kahnLoop (tables.map fun t => (IceSync.fmtId t, t)) graph
    (q0.length + ids.length) (IceSync.nf ids (IceSync.deg0fun ids graph)) q0 []
    with hkres_def
  have hcomplete := kahn_complete tables graph f2 kres hinv2 rank hrank
  have hinj : ∀ t1 ∈ tables, ∀ t2 ∈ tables,
      IceSync.fmtId t1 = IceSync.fmtId t2 → t1 = t2 := by
    have hio := List.inj_on_of_nodup_map hT
    intro t1 h1 t2 h2 he
    exact hio h1 h2 he
  have hnoop : (tables.map fun t => (IceSync.fmtId t, t)).foldl
      (fun r p => if p.2 ∈ r then r else r ++ [p.2]) kres = kres := by
    apply foldl_dedup_noop
    intro p hp
    obtain ⟨t, ht, hpt⟩ := List.mem_map.1 hp
    subst hpt
    show t ∈ kres
    have hmem : IceSync.fmtId t ∈ kres.map IceSync.fmtId :=
      hcomplete (IceSync.fmtId t) (List.mem_map_of_mem _ ht)
    obtain ⟨t2, ht2, hft⟩ := List.mem_map.1 hmem
    have he : t2 = t := hinj t2 (hinv2.hres_sub t2 ht2) t ht hft
    rwa [← he]
  have hsort2 : IceSync.topological_sort tables graph = kres := by
    rw [hsort, hnoop]
  have hBmem : IceSync.fmtId tB ∈ kres.map IceSync.fmtId :=
    hcomplete (IceSync.fmtId tB) (List.mem_map_of_mem _ hB)
  obtain ⟨j, hj, hjget⟩ := List.mem_iff_getElem.1 hBmem
  have hjget2 : (kres.map IceSync.fmtId)[j]? = some (IceSync.fmtId tB) := by
    rw [List.getElem?_eq_getElem hj, hjget]
  have htake := hinv2.horder j (IceSync.fmtId tB) hjget2 (IceSync.fmtId tA) hdep
  obtain ⟨i, hi, higet⟩ := List.mem_iff_getElem.1 htake
  have hij : i < j :=
    lt_of_lt_of_le hi (List.length_take_le j (kres.map IceSync.fmtId))
  have higet2 : (kres.map IceSync.fmtId)[i]? = some (IceSync.fmtId tA) := by
    have hi2 : i < (kres.map IceSync.fmtId).length := by
      have := List.length_take_le j (kres.map IceSync.fmtId)
      have hjl : j ≤ (kres.map IceSync.fmtId).length := le_of_lt hj
      have h3 := hi
      rw [List.length_take] at h3
      omega
    rw [List.getElem?_eq_getElem hi2]
    rw [← List.getElem_take (kres.map IceSync.fmtId), higet]
  have hiA : kres[i]? = some tA := by
    rw [List.getElem?_map] at higet2
    obtain ⟨t2, ht2, hft⟩ := Option.map_eq_some'.1 higet2
    have hmem2 : t2 ∈ kres := List.getElem?_mem ht2
    have he : t2 = tA := hinj t2 (hinv2.hres_sub t2 hmem2) tA hA hft
    rwa [he] at ht2
  have hjB : kres[j]? = some tB := by
    rw [List.getElem?_map] at hjget2
    obtain ⟨t2, ht2, hft⟩ := Option.map_eq_some'.1 hjget2
    have hmem2 : t2 ∈ kres := List.getElem?_mem ht2
    have he : t2 = tB := hinj t2 (hinv2.hres_sub t2 hmem2) tB hB hft
    rwa [he] at ht2
  refine ⟨i, j, hij, ?_, ?_, ?_⟩
  · rw [hsort2]
    exact hiA
  · rw [hsort2]
    exact hjB
  · intro sync hfail
    have hrun : IceSync.sync_in_order sync tables (some graph)
        = IceSync.run_syncs sync (IceSync.topological_sort tables graph) := rfl
    rw [hrun, hsort2]
    exact run_syncs_halt sync kres i tA hiA hfail

/-- C8 counterexample to the unamended claim: (i) with the 2-cycle
`s.a ↔ s.b`, `s.b` is a listed dependency of `s.a` and yet
`_topological_sort` emits `("s","a")` before `("s","b")` (the cycle nodes
are appended in `table_ids` order, not dependency order); (ii) with the
acyclic graph `s.b ← [s.a, s.a]`, `s.c ← [s.b]`, the duplicated dependency
makes `s.b`'s in-degree 2 but only one decrement arrives, so `s.b` is never
enqueued and `("s","c")` is emitted before its dependency `("s","b")`. -/
theorem topo_sync_cex :
    (IceSync.fmtId ("s","b") ∈ IceSync.listedDeps
        (([("s","a"),("s","b")] : List IceSync.Tbl).map IceSync.fmtId)
        [("s.a",["s.b"]),("s.b",["s.a"])] (IceSync.fmtId ("s","a")) ∧
      (IceSync.topological_sort [("s","a"),("s","b")]
        [("s.a",["s.b"]),("s.b",["s.a"])])[0]? = some ("s","a") ∧
      (IceSync.topological_sort [("s","a"),("s","b")]
        [("s.a",["s.b"]),("s.b",["s.a"])])[1]? = some ("s","b")) ∧
    (IceSync.fmtId ("s","b") ∈ IceSync.listedDeps
        (([("s","c"),("s","a"),("s","b")] : List IceSync.Tbl).map IceSync.fmtId)
        [("s.b",["s.a","s.a"]),("s.c",["s.b"])] (IceSync.fmtId ("s","c")) ∧
      (IceSync.topological_sort [("s","c"),("s","a"),("s","b")]
        [("s.b",["s.a","s.a"]),("s.c",["s.b"])])[1]? = some ("s","c") ∧
      (IceSync.topological_sort [("s","c"),("s","a"),("s","b")]
        [("s.b",["s.a","s.a"]),("s.c",["s.b"])])[2]? = some ("s","b")) := by
  decide

/-- C8 witness: on tables `[("s","a"),("s","b")]` with the acyclic,
duplicate-free graph `s.b ← [s.a]`, all amended hypotheses hold concretely
(rank `s.b ↦ 1`, else `0`) and the amended ordering/halting conclusion
follows. -/
theorem topo_sync_witness :
    ((([("s","a"),("s","b")] : List IceSync.Tbl).map IceSync.fmtId).Nodup ∧
      (([("s.b",["s.a"])] : List (String × List String)).map Prod.fst).Nodup ∧
      (∀ p ∈ ([("s.b",["s.a"])] : List (String × List String)), p.2.Nodup) ∧
      (∀ id ∈ ([("s","a"),("s","b")] : List IceSync.Tbl).map IceSync.fmtId,
        ∀ d ∈ IceSync.listedDeps
          (([("s","a"),("s","b")] : List IceSync.Tbl).map IceSync.fmtId)
          [("s.b",["s.a"])] id,
          (if d = "s.b" then 1 else 0) < (if id = "s.b" then 1 else 0)) ∧
      IceSync.fmtId (("s","a") : IceSync.Tbl) ∈ IceSync.listedDeps
        (([("s","a"),("s","b")] : List IceSync.Tbl).map IceSync.fmtId)
        [("s.b",["s.a"])] (IceSync.fmtId (("s","b") : IceSync.Tbl))) ∧
    (∃ i j, i < j ∧
      (IceSync.topological_sort [("s","a"),("s","b")] [("s.b",["s.a"])])[i]?
        = some ("s","a") ∧
      (IceSync.topological_sort [("s","a"),("s","b")] [("s.b",["s.a"])])[j]?
        = some ("s","b") ∧
      ∀ sync : String → String → IceSync.SyncResult,
        (sync "s" "a").success = false →
        (IceSync.sync_in_order sync [("s","a"),("s","b")]
          (some [("s.b",["s.a"])])).length ≤ i + 1) :=
  ⟨⟨by decide, by decide, by decide, by decide, by decide⟩,
    topo_sync_order_amended [("s","a"),("s","b")] [("s.b",["s.a"])]
      (by decide) (by decide) (by decide)
      (fun s => if s = "s.b" then 1 else 0) (by decide)
      ("s","a") ("s","b") (by decide) (by decide) (by decide)⟩
